import Mathlib

/-!
# Verification of the art_indexes publish-and-reconcile pipeline

A shallow embedding, in Lean 4, of the core logic of the `art_indexes`
repository (backend/sanitizer.py, backend/htmlops.py, backend/api.py,
backend/builder.py, backend/fsutil.py, backend/lockutil.py,
backend/pruner.py, backend/card_registry.py), together with theorems
settling the specification claims about that code.

Python strings are modelled as `List Char` (`Str`); HTML markup is
modelled as the element/text tree that BeautifulSoup exposes to the
Python code (element = tag name, ordered attribute list, ordered child
list).  Stateful code (file writes, locking, pruning) is modelled as
explicit state passing.  All definitions are executable.
-/

set_option maxRecDepth 4096

namespace ArtIndexes

/-- Python strings, modelled as lists of characters. -/
abbrev Str := List Char

/-- Literal helper: the character list of a string literal. -/
def strL (s : String) : Str := s.toList

/-- Python `str.lower()` (ASCII range, which is all the code compares). -/
def lowerS (s : Str) : Str := s.map Char.toLower

/-- Python `str.strip()`: drop leading and trailing whitespace. -/
def trimS (s : Str) : Str :=
  ((s.dropWhile Char.isWhitespace).reverse.dropWhile Char.isWhitespace).reverse

/-! ## PathRewriter: `backend/htmlops.py`

`_SKIP_PREFIX` is the compiled regular expression

  `^(https?://|www\.|(?:[A-Za-z0-9-]+\.)+[A-Za-z]{2,}|/|\.\./|#|resource/|mailto:|tel:|data:)`

with the ignore-case flag; `adjust_paths_for_folder` (BeautifulSoup
branch, lines 277-327) rewrites `img[src]` and `a[href]` values between
the per-folder frame (`for_resource_master = False`) and the aggregate
frame (`for_resource_master = True`).
-/

/-- A character of the regex class `[A-Za-z0-9-]`. -/
def isAlnumDash (c : Char) : Bool := c.isAlpha || c.isDigit || c == '-'

/-- `[A-Za-z]{2,}` matched at the head of the remaining input: the next
two characters are ASCII letters (the regex has no anchor after it). -/
def lettersGE2 : Str → Bool
  | a :: b :: _ => a.isAlpha && b.isAlpha
  | _ => false

/-- Tail of the domain-like alternative `(?:[A-Za-z0-9-]+\.)+[A-Za-z]{2,}`
after at least one `chunk.` group has been consumed: either the final
letter run starts here, or one more maximal `[A-Za-z0-9-]+` chunk
followed by `.` is consumed.  `fuel` bounds the recursion by the input
length; each consumed group removes at least two characters. -/
def domTail : Nat → Str → Bool
  | 0, p => lettersGE2 p
  | fuel + 1, p =>
    lettersGE2 p ||
      (let w := p.takeWhile isAlnumDash
       !w.isEmpty && ((p.drop w.length).head? == some '.')
         && domTail fuel (p.drop (w.length + 1)))

/-- The regex alternative `(?:[A-Za-z0-9-]+\.)+[A-Za-z]{2,}` matched at
the start of `p` (this is what makes `www`-less host names like
`example.com` — and, as a side effect, plain file names like
`img.jpg` — skip path rewriting). -/
def domainLike (p : Str) : Bool :=
  let w := p.takeWhile isAlnumDash
  !w.isEmpty && ((p.drop w.length).head? == some '.')
    && domTail p.length (p.drop (w.length + 1))

/-- `htmlops._SKIP_PREFIX.search(p)` is truthy: the anchored, ignore-case
alternation matched at the start of `p`. -/
def skipRe (p : Str) : Bool :=
  let low := lowerS p
  (strL "http://").isPrefixOf low || (strL "https://").isPrefixOf low ||
    (strL "www.").isPrefixOf low || domainLike low ||
    (strL "/").isPrefixOf low || (strL "../").isPrefixOf low ||
    (strL "#").isPrefixOf low || (strL "resource/").isPrefixOf low ||
    (strL "mailto:").isPrefixOf low || (strL "tel:").isPrefixOf low ||
    (strL "data:").isPrefixOf low

/-- `_is_bare(p)` inside `adjust_paths_for_folder`:
`p and not _SKIP_PREFIX.search(p)`. -/
def isBare (p : Str) : Bool := !p.isEmpty && !skipRe p

/-- `f"resource/{folder}/"` — the stored same-folder prefix. -/
def prefSelf (folder : Str) : Str := strL "resource/" ++ folder ++ strL "/"

/-- The `img[src]` rewrite of `adjust_paths_for_folder` for one value.
`forMaster = true` is the aggregate-frame call
(`for_resource_master=True`), `false` the per-folder-frame call. -/
def rewriteSrc (folder : Str) (forMaster : Bool) (src : Str) : Str :=
  if (prefSelf folder).isPrefixOf src then
    let rest := src.drop (prefSelf folder).length
    if forMaster then folder ++ strL "/" ++ rest else rest
  else if (strL "resource/").isPrefixOf src then
    let rest := src.drop (strL "resource/").length
    if forMaster then rest else strL "../" ++ rest
  else if isBare src then
    if forMaster then folder ++ strL "/" ++ src else src
  else src

/-- The `a[href]` rewrite of `adjust_paths_for_folder` for one value:
identical to the `src` rewrite except for the explicit
`href == f"resource/{folder}/index.html"` first case. -/
def rewriteHref (folder : Str) (forMaster : Bool) (href : Str) : Str :=
  if href == prefSelf folder ++ strL "index.html" then
    if forMaster then folder ++ strL "/index.html" else strL "index.html"
  else if (prefSelf folder).isPrefixOf href then
    let rest := href.drop (prefSelf folder).length
    if forMaster then folder ++ strL "/" ++ rest else rest
  else if (strL "resource/").isPrefixOf href then
    let rest := href.drop (strL "resource/").length
    if forMaster then rest else strL "../" ++ rest
  else if isBare href then
    if forMaster then folder ++ strL "/" ++ href else href
  else href

/-! ### List-prefix toolkit -/

theorem isPrefixOf_iff_ex : ∀ (a b : Str), (a.isPrefixOf b = true) ↔ ∃ t, b = a ++ t
  | [], b => by simp [List.isPrefixOf]
  | _ :: _, [] => by simp [List.isPrefixOf]
  | a :: as, b :: bs => by
    simp only [List.isPrefixOf, Bool.and_eq_true, beq_iff_eq, isPrefixOf_iff_ex as bs,
      List.cons_append, List.cons.injEq]
    constructor
    · rintro ⟨h1, t, h2⟩; exact ⟨t, h1.symm, h2⟩
    · rintro ⟨t, h1, h2⟩; exact ⟨h1.symm, t, h2⟩

theorem isPrefixOf_append_self (a t : Str) : a.isPrefixOf (a ++ t) = true :=
  (isPrefixOf_iff_ex a (a ++ t)).mpr ⟨t, rfl⟩

theorem isPrefixOf_append_cancel (a b c : Str) :
    (a ++ b).isPrefixOf (a ++ c) = b.isPrefixOf c := by
  induction a with
  | nil => rfl
  | cons x a ih => simp [List.isPrefixOf, ih]

/-- For slash-free `F` and `G`, `F ++ "/"` can only be a prefix of
`G ++ "/" ++ rest` when `F = G`. -/
theorem slash_pref_eq : ∀ (F G rest : Str), (∀ c ∈ F, c ≠ '/') → (∀ c ∈ G, c ≠ '/') →
    (F ++ ['/']).isPrefixOf (G ++ '/' :: rest) = true → F = G
  | [], [], _, _, _, _ => rfl
  | [], g :: G, rest, _, hG, h => by
    simp only [List.nil_append, List.cons_append, List.isPrefixOf, Bool.and_eq_true,
      beq_iff_eq] at h
    exact absurd h.1.symm (hG g (by simp))
  | f :: F, [], rest, hF, _, h => by
    simp only [List.cons_append, List.nil_append, List.isPrefixOf, Bool.and_eq_true,
      beq_iff_eq] at h
    exact absurd h.1 (hF f (by simp))
  | f :: F, g :: G, rest, hF, hG, h => by
    simp only [List.cons_append, List.isPrefixOf, Bool.and_eq_true, beq_iff_eq] at h
    have := slash_pref_eq F G rest (fun c hc => hF c (by simp [hc]))
      (fun c hc => hG c (by simp [hc])) h.2
    simp [h.1, this]

theorem prefSelf_decomp (F : Str) : prefSelf F = strL "resource/" ++ (F ++ ['/']) := by
  simp [prefSelf, strL]

theorem cross_not_prefSelf (F G rest : Str) (hF : ∀ c ∈ F, c ≠ '/')
    (hG : ∀ c ∈ G, c ≠ '/') (hne : F ≠ G) :
    (prefSelf F).isPrefixOf (strL "resource/" ++ (G ++ '/' :: rest)) = false := by
  by_contra h
  have h' : (prefSelf F).isPrefixOf (strL "resource/" ++ (G ++ '/' :: rest)) = true := by
    revert h
    cases (prefSelf F).isPrefixOf (strL "resource/" ++ (G ++ '/' :: rest)) <;> simp
  rw [prefSelf_decomp, isPrefixOf_append_cancel] at h'
  exact hne (slash_pref_eq F G rest hF hG h')

/-- Lowercasing distributes over the literal `resource/` prefix. -/
theorem lowerS_resource (t : Str) :
    lowerS (strL "resource/" ++ t) = strL "resource/" ++ lowerS t := rfl

/-- The domain-like regex alternative never matches a value that starts
with `resource/` (the chunk run stops at the slash, not at a dot). -/
theorem domainLike_resource (t : Str) : domainLike (strL "resource/" ++ t) = false := rfl

theorem isPrefixOf_head (c : Char) (a x : Str) (h : (c :: a).isPrefixOf x = true) :
    x.head? = some c := by
  cases x with
  | nil => simp [List.isPrefixOf] at h
  | cons y ys =>
    simp only [List.isPrefixOf, Bool.and_eq_true, beq_iff_eq] at h
    simp [h.1]

/-- A reference that (case-insensitively) starts with `resource/` is
matched by `_SKIP_PREFIX`. -/
theorem resource_skipRe (p : Str) (h : (strL "resource/").isPrefixOf (lowerS p) = true) :
    skipRe p = true := by
  simp only [skipRe, Bool.or_eq_true]
  tauto

theorem resource_pref_skipRe (p : Str) (h : (strL "resource/").isPrefixOf p = true) :
    skipRe p = true := by
  obtain ⟨t, rfl⟩ := (isPrefixOf_iff_ex _ _).mp h
  exact resource_skipRe _ (by rw [lowerS_resource]; exact isPrefixOf_append_self _ _)

theorem prefSelf_pref_resource (F p : Str) (h : (prefSelf F).isPrefixOf p = true) :
    (strL "resource/").isPrefixOf p = true := by
  obtain ⟨t, rfl⟩ := (isPrefixOf_iff_ex _ _).mp h
  rw [prefSelf_decomp, List.append_assoc]
  exact isPrefixOf_append_self _ _

/-! ### C4: content-root-prefixed references -/

/-- **C4** — Path-rewrite of `contentRoot`-prefixed references, for
folder names `F ≠ G` that contain no slash: a same-folder reference
`resource/F/<rest>` rewrites to `<rest>` for the per-folder frame and to
`F/<rest>` for the aggregate frame (for both `img[src]` and `a[href]`);
a cross-folder reference `resource/G/<rest>` rewrites to `../G/<rest>`
for `F`'s per-folder frame. -/
theorem c4_path_rewrite_round_trip (F G rest : Str)
    (hF : ∀ c ∈ F, c ≠ '/') (hG : ∀ c ∈ G, c ≠ '/') (hne : F ≠ G) :
    rewriteSrc F false (prefSelf F ++ rest) = rest ∧
    rewriteSrc F true (prefSelf F ++ rest) = F ++ strL "/" ++ rest ∧
    rewriteHref F false (prefSelf F ++ rest) = rest ∧
    rewriteHref F true (prefSelf F ++ rest) = F ++ strL "/" ++ rest ∧
    rewriteSrc F false (prefSelf G ++ rest) = strL "../" ++ G ++ strL "/" ++ rest ∧
    rewriteHref F false (prefSelf G ++ rest) = strL "../" ++ G ++ strL "/" ++ rest := by
  have hd : prefSelf G ++ rest = strL "resource/" ++ (G ++ '/' :: rest) := by
    simp [prefSelf_decomp]
  have hnp := cross_not_prefSelf F G rest hF hG hne
  have hspec : ∀ q : Str, (prefSelf F).isPrefixOf q = false →
      (q == prefSelf F ++ strL "index.html") = false := by
    intro q hq
    rw [beq_eq_false_iff_ne]
    rintro rfl
    rw [isPrefixOf_append_self] at hq
    exact absurd hq (by simp)
  refine ⟨?_, ?_, ?_, ?_, ?_, ?_⟩
  · simp [rewriteSrc, isPrefixOf_append_self, List.drop_left]
  · simp [rewriteSrc, isPrefixOf_append_self, List.drop_left]
  · by_cases hr : rest = strL "index.html"
    · subst hr; simp [rewriteHref]
    · have h0 : (prefSelf F ++ rest == prefSelf F ++ strL "index.html") = false := by
        rw [beq_eq_false_iff_ne]
        intro he
        exact hr (List.append_cancel_left he)
      simp [rewriteHref, h0, isPrefixOf_append_self, List.drop_left]
  · by_cases hr : rest = strL "index.html"
    · subst hr; simp [rewriteHref, strL]
    · have h0 : (prefSelf F ++ rest == prefSelf F ++ strL "index.html") = false := by
        rw [beq_eq_false_iff_ne]
        intro he
        exact hr (List.append_cancel_left he)
      simp [rewriteHref, h0, isPrefixOf_append_self, List.drop_left]
  · rw [hd, rewriteSrc, hnp]
    simp [isPrefixOf_append_self, List.drop_left, strL]
  · rw [hd, rewriteHref, hspec _ hnp, hnp]
    simp [isPrefixOf_append_self, List.drop_left, strL]

/-- Witness for C4 at `F = "F"`, `G = "G"`, `rest = "img.jpg"`. -/
theorem c4_path_rewrite_round_trip_witness :
    rewriteSrc (strL "F") false (prefSelf (strL "F") ++ strL "img.jpg") = strL "img.jpg" ∧
    rewriteSrc (strL "F") true (prefSelf (strL "F") ++ strL "img.jpg") =
      strL "F" ++ strL "/" ++ strL "img.jpg" ∧
    rewriteHref (strL "F") false (prefSelf (strL "F") ++ strL "img.jpg") = strL "img.jpg" ∧
    rewriteHref (strL "F") true (prefSelf (strL "F") ++ strL "img.jpg") =
      strL "F" ++ strL "/" ++ strL "img.jpg" ∧
    rewriteSrc (strL "F") false (prefSelf (strL "G") ++ strL "img.jpg") =
      strL "../" ++ strL "G" ++ strL "/" ++ strL "img.jpg" ∧
    rewriteHref (strL "F") false (prefSelf (strL "G") ++ strL "img.jpg") =
      strL "../" ++ strL "G" ++ strL "/" ++ strL "img.jpg" :=
  c4_path_rewrite_round_trip (strL "F") (strL "G") (strL "img.jpg")
    (by decide) (by decide) (by decide)

/-! ### C5: bare references and untouchable URL classes -/

/-- The URL classes the spec calls absolute, external, fragment,
same-site-absolute and mail/phone/anchor (plus embedded-data), read off
the corresponding `_SKIP_PREFIX` alternatives: `http://`, `https://`,
`www.`, the domain-like pattern, `/`, `#`, `mailto:`, `tel:`, `data:`
(all matched ignore-case). -/
def noTouchRef (p : Str) : Bool :=
  (strL "http://").isPrefixOf (lowerS p) || (strL "https://").isPrefixOf (lowerS p) ||
    (strL "www.").isPrefixOf (lowerS p) || domainLike (lowerS p) ||
    (strL "/").isPrefixOf (lowerS p) || (strL "#").isPrefixOf (lowerS p) ||
    (strL "mailto:").isPrefixOf (lowerS p) || (strL "tel:").isPrefixOf (lowerS p) ||
    (strL "data:").isPrefixOf (lowerS p)

/-- The claim's own description of a "bare/unprefixed filename": no
scheme, no leading `/`, `../`, `#`, no `resource/` prefix, and not
mail/phone/data.  (Stated from the claim text, to be compared with the
code's `_is_bare`.) -/
def specBareRef (p : Str) : Bool :=
  let low := lowerS p
  let w := low.takeWhile (fun c => 'a' ≤ c && c ≤ 'z')
  !p.isEmpty && !(!w.isEmpty && ((low.drop w.length).head? == some ':')) &&
    !(strL "/").isPrefixOf p && !(strL "../").isPrefixOf p && !(strL "#").isPrefixOf p &&
    !(strL "resource/").isPrefixOf low && !(strL "mailto:").isPrefixOf low &&
    !(strL "tel:").isPrefixOf low && !(strL "data:").isPrefixOf low

theorem noTouchRef_skipRe (p : Str) (h : noTouchRef p = true) : skipRe p = true := by
  simp only [noTouchRef, Bool.or_eq_true] at h
  simp only [skipRe, Bool.or_eq_true]
  tauto

/-- On a `resource/`-prefixed value every untouchable-class test
evaluates to false (each alternative fails on the leading `r`, and the
domain-like chunk run stops at the slash). -/
theorem noTouchRef_resource (t : Str) : noTouchRef (strL "resource/" ++ t) = false := rfl

theorem noTouchRef_not_resource (p : Str) (h : noTouchRef p = true) :
    (strL "resource/").isPrefixOf p = false := by
  by_contra hx
  have hx' : (strL "resource/").isPrefixOf p = true := by
    revert hx; cases (strL "resource/").isPrefixOf p <;> simp
  obtain ⟨t, rfl⟩ := (isPrefixOf_iff_ex _ _).mp hx'
  rw [noTouchRef_resource] at h
  exact absurd h (by simp)

theorem bare_not_resource (p : Str) (h : isBare p = true) :
    (strL "resource/").isPrefixOf p = false := by
  by_contra hx
  have hx' : (strL "resource/").isPrefixOf p = true := by
    revert hx; cases (strL "resource/").isPrefixOf p <;> simp
  have := resource_pref_skipRe p hx'
  simp [isBare, this] at h

/-- If `p` is not `resource/`-prefixed, none of the first branches of
the rewrite fire, so both rewrites reduce to the bare test. -/
theorem not_resource_not_prefSelf (F p : Str)
    (h : (strL "resource/").isPrefixOf p = false) :
    (prefSelf F).isPrefixOf p = false := by
  by_contra hx
  have hx' : (prefSelf F).isPrefixOf p = true := by
    revert hx; cases (prefSelf F).isPrefixOf p <;> simp
  rw [prefSelf_pref_resource F p hx'] at h
  exact absurd h (by simp)

theorem not_resource_not_special (F p : Str)
    (h : (strL "resource/").isPrefixOf p = false) :
    (p == prefSelf F ++ strL "index.html") = false := by
  rw [beq_eq_false_iff_ne]
  rintro rfl
  rw [prefSelf_pref_resource F _ (by rw [isPrefixOf_append_self])] at h
  exact absurd h (by simp)

/-- **C5 (amended)** — Rewriting for the aggregate frame of folder `F`
maps every reference that the code classifies as bare (`_is_bare`:
nonempty and not matched by `_SKIP_PREFIX` — in particular neither
`www.`-prefixed nor domain-like, which excludes plain names such as
`img.jpg`) to
`F/<reference>`, for `img[src]` and `a[href]` alike; and every
reference of the absolute / external / fragment / same-site-absolute /
mail-phone-anchor / data classes is left unchanged by both frames. -/
theorem c5_bare_and_untouched_rewrite (F p : Str) :
    (isBare p = true →
      rewriteSrc F true p = F ++ strL "/" ++ p ∧
      rewriteHref F true p = F ++ strL "/" ++ p) ∧
    (noTouchRef p = true →
      rewriteSrc F true p = p ∧ rewriteSrc F false p = p ∧
      rewriteHref F true p = p ∧ rewriteHref F false p = p) := by
  constructor
  · intro hb
    have hres := bare_not_resource p hb
    have h1 := not_resource_not_prefSelf F p hres
    have h0 := not_resource_not_special F p hres
    constructor
    · simp [rewriteSrc, h1, hres, hb]
    · simp [rewriteHref, h0, h1, hres, hb]
  · intro hn
    have hres := noTouchRef_not_resource p hn
    have h1 := not_resource_not_prefSelf F p hres
    have h0 := not_resource_not_special F p hres
    have hbare : isBare p = false := by
      simp [isBare, noTouchRef_skipRe p hn]
    refine ⟨?_, ?_, ?_, ?_⟩ <;> simp [rewriteSrc, rewriteHref, h0, h1, hres, hbare]

/-- Witness for C5 at the bare reference `my_file.jpg` (underscores keep
it outside the domain-like pattern) and the anchor `#top`. -/
theorem c5_bare_and_untouched_rewrite_witness :
    (rewriteSrc (strL "F") true (strL "my_file.jpg") =
      strL "F" ++ strL "/" ++ strL "my_file.jpg") ∧
    rewriteSrc (strL "F") true (strL "#top") = strL "#top" ∧
    rewriteHref (strL "F") false (strL "HTTP://x.y/z") = strL "HTTP://x.y/z" :=
  ⟨((c5_bare_and_untouched_rewrite (strL "F") (strL "my_file.jpg")).1 (by decide)).1,
   ((c5_bare_and_untouched_rewrite (strL "F") (strL "#top")).2 (by decide)).1,
   ((c5_bare_and_untouched_rewrite (strL "F") (strL "HTTP://x.y/z")).2 (by decide)).2.2.2⟩

/-- **C5 counterexample** — `img.jpg` satisfies every condition the
claim lists for a bare filename (no scheme, no leading `/`, `../`, `#`,
no `resource/` prefix, not mail/phone/data), yet the aggregate-frame
rewrite for folder `F` leaves it unchanged instead of producing
`F/img.jpg`: the `_SKIP_PREFIX` domain-like alternative
`(?:[A-Za-z0-9-]+\.)+[A-Za-z]{2,}` matches it. -/
theorem c5_bare_rewrite_counterexample :
    specBareRef (strL "img.jpg") = true ∧
    rewriteSrc (strL "F") true (strL "img.jpg") = strL "img.jpg" ∧
    rewriteHref (strL "F") true (strL "img.jpg") = strL "img.jpg" ∧
    strL "img.jpg" ≠ strL "F" ++ strL "/" ++ strL "img.jpg" := by
  refine ⟨by decide, by decide, by decide, by decide⟩

/-! ## Sanitizer: `backend/sanitizer.py`

`sanitize_for_publish` parses the card markup with BeautifulSoup and
then (1) decomposes every `.card-actions` element, (2) decomposes every
`button`, (3) decomposes every element whose tag is in `DangerTags`,
(4) walks every remaining element in document order and, per element:
strips `on*`/`data-*`/`contenteditable`/`draggable`/`style` attributes,
drops a disallowed `a[href]`/`img[src]` attribute, unwraps the element
if its tag is not in `AllowedTags`, filters `img`/`a` attributes
through the per-tag whitelist (plus `class`), and forces
`rel ⊇ {noopener, noreferrer}` on `a[target=_blank]`.

The markup is modelled as the element/text tree BeautifulSoup exposes;
the document-level passes are fused into one pre-order traversal
(legitimate because every removal decision depends only on the node's
own tag and class, which no earlier step rewrites).  A decomposed
subtree counts one removed node — exactly the code's count except for a
removable node nested inside another removable node, where the code's
count depends on Python set iteration order; no theorem below depends
on the count of such nested removals. -/

/-- The four counters of the metrics dict returned by
`sanitize_for_publish`. -/
structure Metrics where
  removedNodes : Nat
  removedAttrs : Nat
  unwrappedTags : Nat
  blockedUrls : Nat
deriving DecidableEq

def Metrics.zero : Metrics := ⟨0, 0, 0, 0⟩

def Metrics.add (m n : Metrics) : Metrics :=
  ⟨m.removedNodes + n.removedNodes, m.removedAttrs + n.removedAttrs,
    m.unwrappedTags + n.unwrappedTags, m.blockedUrls + n.blockedUrls⟩

/-- `sanitizer.DangerTags`. -/
def dangerTags : List Str :=
  [strL "script", strL "style", strL "iframe", strL "object", strL "embed",
    strL "link", strL "form", strL "input", strL "button", strL "video", strL "audio"]

/-- `sanitizer.AllowedTags`. -/
def allowedTags : List Str :=
  [strL "div", strL "p", strL "img", strL "a", strL "ul", strL "ol", strL "li",
    strL "br", strL "h2", strL "h3", strL "h4", strL "span", strL "strong",
    strL "em", strL "figure", strL "figcaption"]

/-- `sanitizer.AllowedAttrs["img"]`. -/
def imgKeepAttrs : List Str :=
  [strL "src", strL "alt", strL "title", strL "width", strL "height"]

/-- `sanitizer.AllowedAttrs["a"]`. -/
def aKeepAttrs : List Str := [strL "href", strL "title", strL "target", strL "rel"]

/-- `sanitizer.ALLOWED_SCHEMES`. -/
def allowedSchemes : List Str :=
  [strL "http://", strL "https://", strL "mailto:", strL "tel:",
    strL "/", strL "./", strL "../"]

/-- `re.match(r"^[a-z]+:", low)` on an already-lowercased value. -/
def hasSchemeColon (low : Str) : Bool :=
  let w := low.takeWhile (fun c => 'a' ≤ c && c ≤ 'z')
  !w.isEmpty && ((low.drop w.length).head? == some ':')

/-- `sanitizer._is_allowed_url`. -/
def isAllowedUrl (u : Str) : Bool :=
  if u.isEmpty then true
  else
    let low := lowerS (trimS u)
    if (strL "javascript:").isPrefixOf low then false
    else if (strL "data:").isPrefixOf low then false
    else if allowedSchemes.any (fun s => s.isPrefixOf low) || !hasSchemeColon low then true
    else false

/-- First value stored under attribute name `k` (BeautifulSoup's
attribute dict). -/
def lookupA (k : Str) : List (Str × Str) → Option Str
  | [] => none
  | a :: rest => if a.1 == k then some a.2 else lookupA k rest

/-- Replace the value stored under `k`, or append the attribute (Python
dict assignment). -/
def setAttrA (k v : Str) : List (Str × Str) → List (Str × Str)
  | [] => [(k, v)]
  | a :: rest => if a.1 == k then (k, v) :: rest else a :: setAttrA k v rest

/-- The attribute-name test of the strip loop:
`low.startswith("on") or low.startswith("data-") or
low in {"contenteditable", "draggable", "style"}`. -/
def isBadAttrName (n : Str) : Bool :=
  let low := lowerS n
  (strL "on").isPrefixOf low || (strL "data-").isPrefixOf low ||
    low == strL "contenteditable" || low == strL "draggable" || low == strL "style"

/-- Step 3a of the per-element loop: pop every bad-named attribute,
counting each removal. -/
def stripBadAttrs (attrs : List (Str × Str)) : List (Str × Str) × Nat :=
  (attrs.filter (fun a => !isBadAttrName a.1),
    (attrs.filter (fun a => isBadAttrName a.1)).length)

/-- Drop attribute `key` when its value is not an allowed URL
(`element kept, reference dropped`), counting a blocked URL. -/
def blockUrlAttr (key : Str) (attrs : List (Str × Str)) : List (Str × Str) × Nat :=
  match lookupA key attrs with
  | some v =>
    if isAllowedUrl (trimS v) then (attrs, 0)
    else (attrs.filter (fun a => !(a.1 == key)), 1)
  | none => (attrs, 0)

/-- Step 3b: URL safety applies to `a[href]` and `img[src]` only. -/
def urlGuard (tag : Str) (attrs : List (Str × Str)) : List (Str × Str) × Nat :=
  if tag == strL "a" then blockUrlAttr (strL "href") attrs
  else if tag == strL "img" then blockUrlAttr (strL "src") attrs
  else (attrs, 0)

/-- Step 3d: per-tag attribute whitelist (`img`/`a` only), `class`
always retained, counting each popped attribute. -/
def keepAllowedAttrs (tag : Str) (attrs : List (Str × Str)) : List (Str × Str) × Nat :=
  if tag == strL "img" then
    (attrs.filter (fun a => imgKeepAttrs.contains a.1 || a.1 == strL "class"),
      (attrs.filter (fun a => !(imgKeepAttrs.contains a.1 || a.1 == strL "class"))).length)
  else if tag == strL "a" then
    (attrs.filter (fun a => aKeepAttrs.contains a.1 || a.1 == strL "class"),
      (attrs.filter (fun a => !(aKeepAttrs.contains a.1 || a.1 == strL "class"))).length)
  else (attrs, 0)

/-- Python `str.split()` (whitespace runs, no empties): auxiliary with
reversed-accumulator. -/
def wordsAux : Str → Str → List Str
  | [], acc => if acc.isEmpty then [] else [acc.reverse]
  | c :: cs, acc =>
    if c.isWhitespace then
      if acc.isEmpty then wordsAux cs [] else acc.reverse :: wordsAux cs []
    else wordsAux cs (c :: acc)

def wordsS (s : Str) : List Str := wordsAux s []

/-- `" ".join(l)`. -/
def joinWords : List Str → Str
  | [] => []
  | [w] => w
  | w :: ws => w ++ ' ' :: joinWords ws

/-- Order-insensitive deduplication (Python `set`), keeping first
occurrences; the result is sorted right after, so only the underlying
set matters. -/
def dedupAux : List Str → List Str → List Str
  | [], _ => []
  | w :: ws, seen =>
    if seen.contains w then dedupAux ws seen else w :: dedupAux ws (w :: seen)

def dedupStr (l : List Str) : List Str := dedupAux l []

/-- Python string `<` (lexicographic by code point). -/
def lexLt : Str → Str → Bool
  | [], [] => false
  | [], _ :: _ => true
  | _ :: _, [] => false
  | a :: as, b :: bs => if a < b then true else if b < a then false else lexLt as bs

def insertStr (w : Str) : List Str → List Str
  | [] => [w]
  | x :: xs => if lexLt w x then w :: x :: xs else x :: insertStr w xs

/-- Python `sorted` on a list of strings (insertion sort; stable and
lexicographic like the original). -/
def sortStrs : List Str → List Str
  | [] => []
  | w :: ws => insertStr w (sortStrs ws)

/-- `{"noopener", "noreferrer"}`. -/
def neededRel : List Str := [strL "noopener", strL "noreferrer"]

/-- Step 3e: on `a[target=_blank]`, force
`rel = " ".join(sorted(existing | needed))` unless
`needed ⊆ existing`. -/
def forceRel (tag : Str) (attrs : List (Str × Str)) : List (Str × Str) :=
  if tag == strL "a" then
    if lowerS (trimS ((lookupA (strL "target") attrs).getD [])) == strL "_blank" then
      if neededRel.all
          (fun w => (wordsS ((lookupA (strL "rel") attrs).getD [])).contains w) then attrs
      else setAttrA (strL "rel")
        (joinWords (sortStrs (dedupStr
          (wordsS ((lookupA (strL "rel") attrs).getD []) ++ neededRel)))) attrs
    else attrs
  else attrs

/-- `soup.select(".card-actions")` membership test for one element:
its (whitespace-split) class list contains `card-actions`. -/
def hasCardActionsClass (attrs : List (Str × Str)) : Bool :=
  (wordsS ((lookupA (strL "class") attrs).getD [])).contains (strL "card-actions")

/-! The node tree BeautifulSoup hands to the sanitizer: an element
carries its tag name, ordered attribute list and ordered children; a
text node carries its characters (NavigableStrings and comments are
never touched by `sanitize_for_publish`). -/
mutual
inductive Node where
  | text (s : Str)
  | elem (tag : Str) (attrs : List (Str × Str)) (children : NodeList)
deriving DecidableEq
inductive NodeList where
  | nil
  | cons (n : Node) (ns : NodeList)
deriving DecidableEq
end

def NodeList.append : NodeList → NodeList → NodeList
  | .nil, ms => ms
  | .cons n ns, ms => .cons n (ns.append ms)

/-! `sanitize_for_publish`, fused into one pre-order pass: a node is
either decomposed (`.card-actions`, `button`, danger tag), unwrapped
(tag outside the whitelist: children promoted, attribute metrics still
counted, as in the code where the attribute loop runs before the
whitelist check), or kept with the cleaned attribute list. -/
mutual
def sanitizeNode : Node → NodeList × Metrics
  | .text s => (.cons (.text s) .nil, Metrics.zero)
  | .elem tag attrs children =>
    if hasCardActionsClass attrs then (.nil, ⟨1, 0, 0, 0⟩)
    else if tag == strL "button" then (.nil, ⟨1, 0, 0, 0⟩)
    else if dangerTags.contains tag then (.nil, ⟨1, 0, 0, 0⟩)
    else
      let s1 := stripBadAttrs attrs
      let s2 := urlGuard tag s1.1
      if !allowedTags.contains tag then
        let r := sanitizeNodes children
        (r.1, Metrics.add r.2 ⟨0, s1.2, 1, s2.2⟩)
      else
        let s3 := keepAllowedAttrs tag s2.1
        let attrs' := forceRel tag s3.1
        let r := sanitizeNodes children
        (.cons (.elem tag attrs' r.1) .nil, Metrics.add r.2 ⟨0, s1.2 + s3.2, 0, s2.2⟩)
def sanitizeNodes : NodeList → NodeList × Metrics
  | .nil => (.nil, Metrics.zero)
  | .cons n ns =>
    let a := sanitizeNode n
    let b := sanitizeNodes ns
    (a.1.append b.1, Metrics.add a.2 b.2)
end

/-- The attribute-list invariant a kept element of tag `tag` satisfies
after sanitization: no strippable names, `a`/`img` names inside the
whitelist plus `class`, `a[href]`/`img[src]` an allowed URL, and
defensive `rel` on `a[target=_blank]`. -/
def attrsOkFor (tag : Str) (attrs : List (Str × Str)) : Bool :=
  attrs.all (fun a => !isBadAttrName a.1) &&
    (!(tag == strL "a") ||
      attrs.all (fun a => aKeepAttrs.contains a.1 || a.1 == strL "class")) &&
    (!(tag == strL "img") ||
      attrs.all (fun a => imgKeepAttrs.contains a.1 || a.1 == strL "class")) &&
    (!(tag == strL "a") ||
      (match lookupA (strL "href") attrs with
        | some v => isAllowedUrl (trimS v)
        | none => true)) &&
    (!(tag == strL "img") ||
      (match lookupA (strL "src") attrs with
        | some v => isAllowedUrl (trimS v)
        | none => true)) &&
    (!(tag == strL "a" &&
        lowerS (trimS ((lookupA (strL "target") attrs).getD [])) == strL "_blank") ||
      neededRel.all (fun w => (wordsS ((lookupA (strL "rel") attrs).getD [])).contains w))

/-! Markup on which `sanitize_for_publish` is the identity with zero
metrics: no `.card-actions` blocks, no buttons or danger tags, only
whitelisted tags, and every attribute list satisfying `attrsOkFor`. -/
mutual
def cleanNode : Node → Bool
  | .text _ => true
  | .elem tag attrs children =>
    !hasCardActionsClass attrs && !(tag == strL "button") &&
      !dangerTags.contains tag && allowedTags.contains tag &&
      attrsOkFor tag attrs && cleanNodes children
def cleanNodes : NodeList → Bool
  | .nil => true
  | .cons n ns => cleanNode n && cleanNodes ns
end


/-! ### Attribute-list toolkit -/

theorem lookupA_filter_true (q : Str → Bool) (k : Str) :
    ∀ l : List (Str × Str), q k = true →
      lookupA k (l.filter fun a => q a.1) = lookupA k l
  | [], _ => rfl
  | a :: rest, hq => by
    by_cases h : a.1 = k
    · subst h
      simp [List.filter, hq, lookupA, lookupA_filter_true q a.1 rest hq]
    · have hb : (a.1 == k) = false := by simp [h]
      by_cases h2 : q a.1 = true
      · simp [List.filter, h2, lookupA, hb, lookupA_filter_true q k rest hq]
      · have h2' : q a.1 = false := by revert h2; cases q a.1 <;> simp
        simp [List.filter, h2', lookupA, hb, lookupA_filter_true q k rest hq]

theorem lookupA_filter_false (q : Str → Bool) (k : Str) :
    ∀ l : List (Str × Str), q k = false →
      lookupA k (l.filter fun a => q a.1) = none
  | [], _ => rfl
  | a :: rest, hq => by
    by_cases h : a.1 = k
    · subst h
      simp [List.filter, hq, lookupA_filter_false q a.1 rest hq]
    · have hb : (a.1 == k) = false := by simp [h]
      by_cases h2 : q a.1 = true
      · simp [List.filter, h2, lookupA, hb, lookupA_filter_false q k rest hq]
      · have h2' : q a.1 = false := by revert h2; cases q a.1 <;> simp
        simp [List.filter, h2', lookupA_filter_false q k rest hq]

theorem lookupA_setAttrA_ne (k' k v : Str) (h : k' ≠ k) :
    ∀ l : List (Str × Str), lookupA k' (setAttrA k v l) = lookupA k' l
  | [] => by
    simp [setAttrA, lookupA, (by simp [h.symm] : (k == k') = false)]
  | a :: rest => by
    by_cases ha : a.1 = k
    · simp [setAttrA, ha, lookupA, (by simp [h.symm] : (k == k') = false),
        (by simp [ha, h.symm] : (a.1 == k') = false)]
    · simp [setAttrA, (by simp [ha] : (a.1 == k) = false), lookupA,
        lookupA_setAttrA_ne k' k v h rest]

theorem lookupA_setAttrA_self (k v : Str) :
    ∀ l : List (Str × Str), lookupA k (setAttrA k v l) = some v
  | [] => by simp [setAttrA, lookupA]
  | a :: rest => by
    by_cases ha : a.1 = k
    · simp [setAttrA, ha, lookupA]
    · simp [setAttrA, (by simp [ha] : (a.1 == k) = false), lookupA,
        lookupA_setAttrA_self k v rest]

theorem all_filter_of_all (p : Str × Str → Bool) (q : Str × Str → Bool)
    (l : List (Str × Str)) (h : l.all q = true) : (l.filter p).all q = true := by
  rw [List.all_eq_true] at h ⊢
  intro a ha
  exact h a (List.mem_of_mem_filter ha)

theorem all_filter_self (p : Str × Str → Bool) (l : List (Str × Str)) :
    (l.filter p).all p = true := by
  rw [List.all_eq_true]
  intro a ha
  exact (List.mem_filter.mp ha).2

theorem setAttrA_all (q : Str × Str → Bool) (k v : Str) (hkv : q (k, v) = true) :
    ∀ l : List (Str × Str), l.all q = true → (setAttrA k v l).all q = true
  | [], _ => by simp [setAttrA, hkv]
  | a :: rest, h => by
    simp only [List.all_cons, Bool.and_eq_true] at h
    by_cases ha : a.1 = k
    · simp [setAttrA, ha, hkv, h.2]
    · simp [setAttrA, (by simp [ha] : (a.1 == k) = false), h.1,
        setAttrA_all q k v hkv rest h.2]

theorem filter_all_id (p : Str × Str → Bool) (l : List (Str × Str))
    (h : l.all p = true) : l.filter p = l := by
  rw [List.all_eq_true] at h
  exact List.filter_eq_self.mpr h

theorem filter_neg_nil (p : Str × Str → Bool) (l : List (Str × Str))
    (h : l.all (fun a => !p a) = true) : l.filter p = [] := by
  rw [List.all_eq_true] at h
  rw [List.filter_eq_nil_iff]
  intro a ha
  have := h a ha
  revert this; cases p a <;> simp


/-! ### word-splitting / joining toolkit (for the `rel` forcing) -/

theorem wordsAux_good : ∀ (s acc : Str), (∀ c ∈ acc, c.isWhitespace = false) →
    ∀ w ∈ wordsAux s acc, w ≠ [] ∧ ∀ c ∈ w, c.isWhitespace = false
  | [], acc, hacc => by
    by_cases h : acc.isEmpty
    · simp [wordsAux, h]
    · intro w hw
      simp [wordsAux, h] at hw
      subst hw
      refine ⟨by simpa [List.isEmpty_iff] using h, ?_⟩
      intro c hc
      exact hacc c (List.mem_reverse.mp hc)
  | c :: cs, acc, hacc => by
    by_cases hw : c.isWhitespace
    · by_cases he : acc.isEmpty
      · intro w hmem
        simp only [wordsAux, hw, he, if_true] at hmem
        exact wordsAux_good cs [] (by simp) w hmem
      · intro w hmem
        simp only [wordsAux, hw, he, if_true, if_false] at hmem
        rcases List.mem_cons.mp hmem with h1 | h1
        · subst h1
          refine ⟨by simpa [List.isEmpty_iff] using he, ?_⟩
          intro d hd
          exact hacc d (List.mem_reverse.mp hd)
        · exact wordsAux_good cs [] (by simp) w h1
    · intro w hmem
      have hw' : c.isWhitespace = false := by revert hw; cases c.isWhitespace <;> simp
      simp only [wordsAux, hw', if_false, Bool.false_eq_true] at hmem
      refine wordsAux_good cs (c :: acc) ?_ w hmem
      intro d hd
      rcases List.mem_cons.mp hd with h1 | h1
      · subst h1; exact hw'
      · exact hacc d h1

theorem wordsS_good (s : Str) : ∀ w ∈ wordsS s, w ≠ [] ∧ ∀ c ∈ w, c.isWhitespace = false :=
  wordsAux_good s [] (by simp)

theorem wordsAux_skip_word : ∀ (w rest acc : Str), (∀ c ∈ w, c.isWhitespace = false) →
    wordsAux (w ++ rest) acc = wordsAux rest (w.reverse ++ acc)
  | [], rest, acc, _ => rfl
  | c :: w, rest, acc, hw => by
    have hc : c.isWhitespace = false := hw c (by simp)
    simp only [List.cons_append, wordsAux, hc, Bool.false_eq_true, if_false, List.append_eq]
    rw [wordsAux_skip_word w rest (c :: acc) (fun d hd => hw d (by simp [hd]))]
    simp

theorem words_join : ∀ ws : List Str,
    (∀ w ∈ ws, w ≠ [] ∧ ∀ c ∈ w, c.isWhitespace = false) →
    wordsS (joinWords ws) = ws
  | [], _ => rfl
  | [w], h => by
    obtain ⟨hne, hgood⟩ := h w (by simp)
    have : wordsS (joinWords [w]) = wordsAux (w ++ []) [] := by simp [joinWords, wordsS]
    rw [this, wordsAux_skip_word w [] [] hgood]
    have hrev : (w.reverse ++ []).isEmpty = false := by
      simp [List.isEmpty_iff, hne]
    simp [wordsAux, hrev, hne]
  | w :: w2 :: ws, h => by
    obtain ⟨hne, hgood⟩ := h w (by simp)
    have hjoin : joinWords (w :: w2 :: ws) = w ++ ' ' :: joinWords (w2 :: ws) := rfl
    have hrest := words_join (w2 :: ws) (fun v hv => h v (by simp [List.mem_cons] at hv ⊢; tauto))
    rw [wordsS, hjoin, wordsAux_skip_word w (' ' :: joinWords (w2 :: ws)) [] hgood]
    have hrev : (w.reverse ++ []).isEmpty = false := by
      simp [List.isEmpty_iff, hne]
    simp only [wordsAux, (by decide : (' ').isWhitespace = true), if_true, hrev,
      Bool.false_eq_true, if_false]
    rw [show wordsAux (joinWords (w2 :: ws)) [] = wordsS (joinWords (w2 :: ws)) from rfl, hrest]
    simp

theorem mem_insertStr (x w : Str) : ∀ l : List Str, (x ∈ insertStr w l ↔ x = w ∨ x ∈ l)
  | [] => by simp [insertStr]
  | y :: ys => by
    by_cases h : lexLt w y
    · simp [insertStr, h]
    · have h' : lexLt w y = false := by revert h; cases lexLt w y <;> simp
      simp [insertStr, h', mem_insertStr x w ys]
      tauto

theorem mem_sortStrs (x : Str) : ∀ l : List Str, (x ∈ sortStrs l ↔ x ∈ l)
  | [] => Iff.rfl
  | w :: ws => by
    simp [sortStrs, mem_insertStr, mem_sortStrs x ws]

theorem mem_dedupAux (x : Str) : ∀ (l seen : List Str),
    (x ∈ dedupAux l seen ↔ x ∈ l ∧ x ∉ seen)
  | [], seen => by simp [dedupAux]
  | w :: ws, seen => by
    by_cases h : seen.contains w
    · have hmem : w ∈ seen := List.elem_iff.mp h
      simp only [dedupAux, h, if_true, mem_dedupAux x ws seen, List.mem_cons]
      constructor
      · rintro ⟨h1, h2⟩; exact ⟨Or.inr h1, h2⟩
      · rintro ⟨h1 | h1, h2⟩
        · subst h1; exact absurd hmem h2
        · exact ⟨h1, h2⟩
    · have hmem : w ∉ seen := fun hc => h (List.elem_iff.mpr hc)
      have h' : seen.contains w = false := by revert h; cases seen.contains w <;> simp
      simp only [dedupAux, h', Bool.false_eq_true, if_false, List.mem_cons,
        mem_dedupAux x ws (w :: seen)]
      constructor
      · rintro (h1 | ⟨h1, h2⟩)
        · subst h1; exact ⟨Or.inl rfl, hmem⟩
        · exact ⟨Or.inr h1, fun hc => h2 (by simp [hc])⟩
      · rintro ⟨h1 | h1, h2⟩
        · exact Or.inl h1
        · by_cases hxw : x = w
          · exact Or.inl hxw
          · exact Or.inr ⟨h1, by simp [hxw, h2]⟩

theorem mem_dedupStr (x : Str) (l : List Str) : x ∈ dedupStr l ↔ x ∈ l := by
  simp [dedupStr, mem_dedupAux]


/-! ### Per-step lemmas about the attribute pipeline -/

theorem blockUrlAttr_lookup_ne (key k : Str) (l : List (Str × Str))
    (h : (k == key) = false) : lookupA k (blockUrlAttr key l).1 = lookupA k l := by
  unfold blockUrlAttr
  cases hv : lookupA key l with
  | none => rfl
  | some v =>
    by_cases ha : isAllowedUrl (trimS v) = true
    · simp [ha]
    · have ha' : isAllowedUrl (trimS v) = false := by
        revert ha; cases isAllowedUrl (trimS v) <;> simp
      simp only [ha', Bool.false_eq_true, if_false]
      exact lookupA_filter_true (fun n => !(n == key)) k l (by simp [h])

theorem blockUrlAttr_all (q : Str × Str → Bool) (key : Str) (l : List (Str × Str))
    (h : l.all q = true) : (blockUrlAttr key l).1.all q = true := by
  unfold blockUrlAttr
  cases lookupA key l with
  | none => exact h
  | some v =>
    by_cases ha : isAllowedUrl (trimS v) = true
    · simpa [ha] using h
    · have ha' : isAllowedUrl (trimS v) = false := by
        revert ha; cases isAllowedUrl (trimS v) <;> simp
      simp only [ha', Bool.false_eq_true, if_false]
      exact all_filter_of_all _ q l h

theorem blockUrlAttr_key_ok (key : Str) (l : List (Str × Str)) :
    ∀ v, lookupA key (blockUrlAttr key l).1 = some v → isAllowedUrl (trimS v) = true := by
  intro v hv
  unfold blockUrlAttr at hv
  cases hl : lookupA key l with
  | none => rw [hl] at hv; rw [hl] at hv; exact absurd hv (by simp)
  | some v0 =>
    rw [hl] at hv
    by_cases ha : isAllowedUrl (trimS v0) = true
    · simp only [ha, if_true] at hv
      rw [hl] at hv
      cases hv; exact ha
    · have ha' : isAllowedUrl (trimS v0) = false := by
        revert ha; cases isAllowedUrl (trimS v0) <;> simp
      simp only [ha', Bool.false_eq_true, if_false] at hv
      rw [lookupA_filter_false (fun n => !(n == key)) key l (by simp)] at hv
      exact absurd hv (by simp)

theorem urlGuard_eq_a (l : List (Str × Str)) :
    urlGuard (strL "a") l = blockUrlAttr (strL "href") l := rfl

theorem urlGuard_eq_img (l : List (Str × Str)) :
    urlGuard (strL "img") l = blockUrlAttr (strL "src") l := rfl

theorem urlGuard_lookup_ne (tag k : Str) (l : List (Str × Str))
    (h1 : (k == strL "href") = false) (h2 : (k == strL "src") = false) :
    lookupA k (urlGuard tag l).1 = lookupA k l := by
  unfold urlGuard
  by_cases ta : (tag == strL "a") = true
  · simp only [ta, if_true]
    exact blockUrlAttr_lookup_ne _ k l h1
  · have ta' : (tag == strL "a") = false := by revert ta; cases tag == strL "a" <;> simp
    by_cases ti : (tag == strL "img") = true
    · simp only [ta', ti, Bool.false_eq_true, if_false, if_true]
      exact blockUrlAttr_lookup_ne _ k l h2
    · have ti' : (tag == strL "img") = false := by revert ti; cases tag == strL "img" <;> simp
      simp [ta', ti']

theorem urlGuard_all (q : Str × Str → Bool) (tag : Str) (l : List (Str × Str))
    (h : l.all q = true) : (urlGuard tag l).1.all q = true := by
  unfold urlGuard
  by_cases ta : (tag == strL "a") = true
  · simp only [ta, if_true]; exact blockUrlAttr_all q _ l h
  · have ta' : (tag == strL "a") = false := by revert ta; cases tag == strL "a" <;> simp
    by_cases ti : (tag == strL "img") = true
    · simp only [ta', ti, Bool.false_eq_true, if_false, if_true]
      exact blockUrlAttr_all q _ l h
    · have ti' : (tag == strL "img") = false := by revert ti; cases tag == strL "img" <;> simp
      simpa [ta', ti'] using h

theorem keepAllowed_a_lookup (k : Str) (l : List (Str × Str))
    (ha : (aKeepAttrs.contains k || k == strL "class") = true) :
    lookupA k (keepAllowedAttrs (strL "a") l).1 = lookupA k l := by
  unfold keepAllowedAttrs
  simp only [show ((strL "a" : Str) == strL "img") = false by decide, Bool.false_eq_true,
    if_false, show ((strL "a" : Str) == strL "a") = true by decide, if_true]
  exact lookupA_filter_true (fun n => aKeepAttrs.contains n || n == strL "class") k l ha

theorem keepAllowed_img_lookup (k : Str) (l : List (Str × Str))
    (hi : (imgKeepAttrs.contains k || k == strL "class") = true) :
    lookupA k (keepAllowedAttrs (strL "img") l).1 = lookupA k l := by
  unfold keepAllowedAttrs
  simp only [show ((strL "img" : Str) == strL "img") = true by decide, if_true]
  exact lookupA_filter_true (fun n => imgKeepAttrs.contains n || n == strL "class") k l hi

theorem keepAllowed_other_id (tag : Str) (l : List (Str × Str))
    (h1 : (tag == strL "img") = false) (h2 : (tag == strL "a") = false) :
    keepAllowedAttrs tag l = (l, 0) := by
  simp [keepAllowedAttrs, h1, h2]

theorem keepAllowed_class_lookup (tag : Str) (l : List (Str × Str)) :
    lookupA (strL "class") (keepAllowedAttrs tag l).1 = lookupA (strL "class") l := by
  unfold keepAllowedAttrs
  by_cases ti : (tag == strL "img") = true
  · simp only [ti, if_true]
    exact lookupA_filter_true (fun n => imgKeepAttrs.contains n || n == strL "class") _ l
      (by decide)
  · have ti' : (tag == strL "img") = false := by revert ti; cases tag == strL "img" <;> simp
    by_cases ta : (tag == strL "a") = true
    · simp only [ti', ta, Bool.false_eq_true, if_false, if_true]
      exact lookupA_filter_true (fun n => aKeepAttrs.contains n || n == strL "class") _ l
        (by decide)
    · have ta' : (tag == strL "a") = false := by revert ta; cases tag == strL "a" <;> simp
      simp [ti', ta']

theorem forceRel_lookup_ne (tag k : Str) (l : List (Str × Str))
    (h : k ≠ strL "rel") : lookupA k (forceRel tag l) = lookupA k l := by
  unfold forceRel
  by_cases ta : (tag == strL "a") = true
  · simp only [ta, if_true]
    by_cases ht : (lowerS (trimS ((lookupA (strL "target") l).getD [])) == strL "_blank") = true
    · simp only [ht, if_true]
      by_cases hn : (neededRel.all fun w =>
          (wordsS ((lookupA (strL "rel") l).getD [])).contains w) = true
      · simp only [hn]; simp
      · have hn' : (neededRel.all fun w =>
            (wordsS ((lookupA (strL "rel") l).getD [])).contains w) = false := by
          revert hn
          cases neededRel.all fun w => (wordsS ((lookupA (strL "rel") l).getD [])).contains w
            <;> simp
        simp only [hn', Bool.false_eq_true, if_false]
        exact lookupA_setAttrA_ne k _ _ h l
    · have ht' : (lowerS (trimS ((lookupA (strL "target") l).getD [])) == strL "_blank")
          = false := by
        revert ht
        cases lowerS (trimS ((lookupA (strL "target") l).getD [])) == strL "_blank" <;> simp
      simp [ht']
  · have ta' : (tag == strL "a") = false := by revert ta; cases tag == strL "a" <;> simp
    simp [ta']

theorem forceRel_all (q : Str × Str → Bool) (tag : Str) (l : List (Str × Str))
    (h : l.all q = true) (hrel : ∀ v, q (strL "rel", v) = true) :
    (forceRel tag l).all q = true := by
  unfold forceRel
  by_cases ta : (tag == strL "a") = true
  · simp only [ta, if_true]
    by_cases ht : (lowerS (trimS ((lookupA (strL "target") l).getD [])) == strL "_blank") = true
    · simp only [ht, if_true]
      by_cases hn : (neededRel.all fun w =>
          (wordsS ((lookupA (strL "rel") l).getD [])).contains w) = true
      · simp only [hn]; simpa using h
      · have hn' : (neededRel.all fun w =>
            (wordsS ((lookupA (strL "rel") l).getD [])).contains w) = false := by
          revert hn
          cases neededRel.all fun w => (wordsS ((lookupA (strL "rel") l).getD [])).contains w
            <;> simp
        simp only [hn', Bool.false_eq_true, if_false]
        exact setAttrA_all q _ _ (hrel _) l h
    · have ht' : (lowerS (trimS ((lookupA (strL "target") l).getD [])) == strL "_blank")
          = false := by
        revert ht
        cases lowerS (trimS ((lookupA (strL "target") l).getD [])) == strL "_blank" <;> simp
      simpa [ht'] using h
  · have ta' : (tag == strL "a") = false := by revert ta; cases tag == strL "a" <;> simp
    simpa [ta'] using h

/-- After `forceRel` on an `a` element whose (unchanged) `target` is
`_blank`, the `rel` word list contains both defensive values. -/
theorem forceRel_a_rel (l : List (Str × Str))
    (htgt : (lowerS (trimS ((lookupA (strL "target") l).getD [])) == strL "_blank") = true) :
    (neededRel.all fun w =>
      (wordsS ((lookupA (strL "rel") (forceRel (strL "a") l)).getD [])).contains w) = true := by
  unfold forceRel
  simp only [show ((strL "a" : Str) == strL "a") = true by decide, if_true, htgt]
  by_cases hn : (neededRel.all fun w =>
      (wordsS ((lookupA (strL "rel") l).getD [])).contains w) = true
  · simp only [hn]; simpa using hn
  · have hn' : (neededRel.all fun w =>
        (wordsS ((lookupA (strL "rel") l).getD [])).contains w) = false := by
      revert hn
      cases neededRel.all fun w => (wordsS ((lookupA (strL "rel") l).getD [])).contains w <;> simp
    simp only [hn', Bool.false_eq_true, if_false]
    rw [lookupA_setAttrA_self]
    have hgood : ∀ w ∈ sortStrs (dedupStr ((wordsS ((lookupA (strL "rel") l).getD []))
        ++ neededRel)), w ≠ [] ∧ ∀ c ∈ w, c.isWhitespace = false := by
      intro w hw
      have hw2 : w ∈ (wordsS ((lookupA (strL "rel") l).getD [])) ++ neededRel := by
        have := (mem_sortStrs w _).mp hw
        exact (mem_dedupStr w _).mp this
      rcases List.mem_append.mp hw2 with h1 | h1
      · exact wordsS_good _ w h1
      · simp only [neededRel, List.mem_cons, List.mem_singleton,
          List.not_mem_nil, or_false] at h1
        rcases h1 with rfl | rfl
        · exact ⟨by decide, by decide⟩
        · exact ⟨by decide, by decide⟩
    rw [Option.getD_some, words_join _ hgood]
    rw [List.all_eq_true]
    intro w hw
    rw [List.elem_iff]
    rw [mem_sortStrs, mem_dedupStr]
    exact List.mem_append.mpr (Or.inr hw)


/-! ### The whole attribute pipeline of a kept element -/

theorem keepAllowed_eq_a (l : List (Str × Str)) :
    keepAllowedAttrs (strL "a") l =
      (l.filter (fun a => aKeepAttrs.contains a.1 || a.1 == strL "class"),
        (l.filter (fun a => !(aKeepAttrs.contains a.1 || a.1 == strL "class"))).length) := rfl

theorem keepAllowed_eq_img (l : List (Str × Str)) :
    keepAllowedAttrs (strL "img") l =
      (l.filter (fun a => imgKeepAttrs.contains a.1 || a.1 == strL "class"),
        (l.filter (fun a => !(imgKeepAttrs.contains a.1 || a.1 == strL "class"))).length) := rfl

theorem keepAllowed_all (q : Str × Str → Bool) (tag : Str) (l : List (Str × Str))
    (h : l.all q = true) : (keepAllowedAttrs tag l).1.all q = true := by
  unfold keepAllowedAttrs
  by_cases ti : (tag == strL "img") = true
  · simp only [ti, if_true]; exact all_filter_of_all _ q l h
  · have ti' : (tag == strL "img") = false := by revert ti; cases tag == strL "img" <;> simp
    by_cases ta : (tag == strL "a") = true
    · simp only [ti', ta, Bool.false_eq_true, if_false, if_true]
      exact all_filter_of_all _ q l h
    · have ta' : (tag == strL "a") = false := by revert ta; cases tag == strL "a" <;> simp
      simpa [ti', ta'] using h

theorem forceRel_other_id (tag : Str) (l : List (Str × Str))
    (h : (tag == strL "a") = false) : forceRel tag l = l := by
  simp [forceRel, h]

/-- The class attribute survives the whole per-element attribute
pipeline unchanged, so the `.card-actions` test gives the same answer
before and after sanitization. -/
theorem class_pipe (tag : Str) (attrs : List (Str × Str)) :
    lookupA (strL "class")
        (forceRel tag (keepAllowedAttrs tag (urlGuard tag (stripBadAttrs attrs).1).1).1) =
      lookupA (strL "class") attrs := by
  rw [forceRel_lookup_ne _ _ _ (by decide), keepAllowed_class_lookup,
    urlGuard_lookup_ne _ _ _ (by decide) (by decide)]
  show lookupA (strL "class") ((stripBadAttrs attrs).1) = lookupA (strL "class") attrs
  unfold stripBadAttrs
  exact lookupA_filter_true (fun n => !isBadAttrName n) _ attrs (by decide)

theorem hasCardActions_pipe (tag : Str) (attrs : List (Str × Str)) :
    hasCardActionsClass
        (forceRel tag (keepAllowedAttrs tag (urlGuard tag (stripBadAttrs attrs).1).1).1) =
      hasCardActionsClass attrs := by
  unfold hasCardActionsClass
  rw [class_pipe]

/-- The attribute invariant holds of every pipeline output. -/
theorem attrsOk_pipe (tag : Str) (attrs : List (Str × Str)) :
    attrsOkFor tag
      (forceRel tag (keepAllowedAttrs tag (urlGuard tag (stripBadAttrs attrs).1).1).1) = true := by
  have hbase : ((stripBadAttrs attrs).1).all (fun a => !isBadAttrName a.1) = true := by
    unfold stripBadAttrs
    exact all_filter_self _ attrs
  simp only [attrsOkFor, Bool.and_eq_true]
  refine ⟨⟨⟨⟨⟨?_, ?_⟩, ?_⟩, ?_⟩, ?_⟩, ?_⟩
  -- (1) no strippable attribute names
  · exact forceRel_all _ tag _ (keepAllowed_all _ tag _ (urlGuard_all _ tag _ hbase))
      (fun v => show (!isBadAttrName (strL "rel")) = true by decide)
  -- (2) `a` whitelist
  · by_cases ta : (tag == strL "a") = true
    · have htag : tag = strL "a" := by simpa using ta
      subst htag
      rw [Bool.or_eq_true]
      refine Or.inr ?_
      rw [keepAllowed_eq_a]
      exact forceRel_all _ _ _ (all_filter_self _ _)
        (fun v => show (aKeepAttrs.contains (strL "rel") ||
          (strL "rel" : Str) == strL "class") = true by decide)
    · have ta' : (tag == strL "a") = false := by revert ta; cases tag == strL "a" <;> simp
      simp [ta']
  -- (3) `img` whitelist
  · by_cases ti : (tag == strL "img") = true
    · have htag : tag = strL "img" := by simpa using ti
      subst htag
      rw [Bool.or_eq_true]
      refine Or.inr ?_
      rw [forceRel_other_id _ _ (by decide), keepAllowed_eq_img]
      exact all_filter_self _ _
    · have ti' : (tag == strL "img") = false := by revert ti; cases tag == strL "img" <;> simp
      simp [ti']
  -- (4) allowed `a[href]`
  · by_cases ta : (tag == strL "a") = true
    · have htag : tag = strL "a" := by simpa using ta
      subst htag
      rw [Bool.or_eq_true]
      refine Or.inr ?_
      rw [forceRel_lookup_ne _ _ _ (by decide), keepAllowed_a_lookup _ _ (by decide),
        urlGuard_eq_a]
      cases hv : lookupA (strL "href") (blockUrlAttr (strL "href") (stripBadAttrs attrs).1).1 with
      | none => simp
      | some v => exact blockUrlAttr_key_ok _ _ v hv
    · have ta' : (tag == strL "a") = false := by revert ta; cases tag == strL "a" <;> simp
      simp [ta']
  -- (5) allowed `img[src]`
  · by_cases ti : (tag == strL "img") = true
    · have htag : tag = strL "img" := by simpa using ti
      subst htag
      rw [Bool.or_eq_true]
      refine Or.inr ?_
      rw [forceRel_lookup_ne _ _ _ (by decide), keepAllowed_img_lookup _ _ (by decide),
        urlGuard_eq_img]
      cases hv : lookupA (strL "src") (blockUrlAttr (strL "src") (stripBadAttrs attrs).1).1 with
      | none => simp
      | some v => exact blockUrlAttr_key_ok _ _ v hv
    · have ti' : (tag == strL "img") = false := by revert ti; cases tag == strL "img" <;> simp
      simp [ti']
  -- (6) defensive rel on a[target=_blank]
  · by_cases ta : (tag == strL "a") = true
    · have htag : tag = strL "a" := by simpa using ta
      subst htag
      set l3 := keepAllowedAttrs (strL "a") (urlGuard (strL "a") (stripBadAttrs attrs).1).1 with hl3
      by_cases ht : (lowerS (trimS ((lookupA (strL "target") l3.1).getD [])) == strL "_blank")
          = true
      · rw [Bool.or_eq_true]
        refine Or.inr (forceRel_a_rel l3.1 ht)
      · have ht' : (lowerS (trimS ((lookupA (strL "target") l3.1).getD [])) == strL "_blank")
            = false := by
          revert ht
          cases lowerS (trimS ((lookupA (strL "target") l3.1).getD [])) == strL "_blank" <;> simp
        rw [Bool.or_eq_true]
        refine Or.inl ?_
        have htgt : lookupA (strL "target") (forceRel (strL "a") l3.1) =
            lookupA (strL "target") l3.1 := forceRel_lookup_ne _ _ _ (by decide)
        simp [htgt, ht']
    · have ta' : (tag == strL "a") = false := by revert ta; cases tag == strL "a" <;> simp
      simp [ta']


/-! ### Sanitizer output is clean -/

theorem cleanNodes_append : ∀ a b : NodeList,
    cleanNodes a = true → cleanNodes b = true → cleanNodes (a.append b) = true
  | .nil, _, _, hb => hb
  | .cons n ns, b, ha, hb => by
    simp only [NodeList.append, cleanNodes, Bool.and_eq_true] at ha ⊢
    exact ⟨ha.1, cleanNodes_append ns b ha.2 hb⟩

mutual
theorem sanitizeNode_clean : ∀ n : Node, cleanNodes (sanitizeNode n).1 = true
  | .text s => by simp [sanitizeNode, cleanNodes, cleanNode]
  | .elem tag attrs children => by
    by_cases h1 : hasCardActionsClass attrs = true
    · simp [sanitizeNode, h1, cleanNodes]
    · have h1' : hasCardActionsClass attrs = false := by
        revert h1; cases hasCardActionsClass attrs <;> simp
      by_cases h2 : (tag == strL "button") = true
      · simp [sanitizeNode, h1', h2, cleanNodes]
      · have h2' : (tag == strL "button") = false := by
          revert h2; cases tag == strL "button" <;> simp
        by_cases hm3 : tag ∈ dangerTags
        · simp [sanitizeNode, h1', h2', hm3, cleanNodes]
        · by_cases hm4 : tag ∈ allowedTags
          · have hc := sanitizeNodes_clean children
            simp [sanitizeNode, h1', h2', hm3, hm4, cleanNodes, cleanNode,
              hasCardActions_pipe, attrsOk_pipe tag attrs, hc]
          · have hc := sanitizeNodes_clean children
            simpa [sanitizeNode, h1', h2', hm3, hm4] using hc
theorem sanitizeNodes_clean : ∀ ns : NodeList, cleanNodes (sanitizeNodes ns).1 = true
  | .nil => rfl
  | .cons n ns => by
    have ha := sanitizeNode_clean n
    have hb := sanitizeNodes_clean ns
    simp only [sanitizeNodes]
    exact cleanNodes_append _ _ ha hb
end


/-! ### Sanitization is the identity on clean markup -/

theorem stripBad_id (attrs : List (Str × Str))
    (h : attrs.all (fun a => !isBadAttrName a.1) = true) : stripBadAttrs attrs = (attrs, 0) := by
  unfold stripBadAttrs
  rw [filter_all_id _ _ h, filter_neg_nil (fun a => isBadAttrName a.1) _ h]
  rfl

theorem blockUrl_id (key : Str) (l : List (Str × Str))
    (h : ∀ v, lookupA key l = some v → isAllowedUrl (trimS v) = true) :
    blockUrlAttr key l = (l, 0) := by
  unfold blockUrlAttr
  cases hv : lookupA key l with
  | none => rfl
  | some v => simp [h v hv]

/-- On an attribute list already satisfying the invariant, every stage
of the per-element pipeline is the identity with a zero count. -/
theorem pipe_id (tag : Str) (attrs : List (Str × Str)) (hok : attrsOkFor tag attrs = true) :
    stripBadAttrs attrs = (attrs, 0) ∧
    urlGuard tag attrs = (attrs, 0) ∧
    keepAllowedAttrs tag attrs = (attrs, 0) ∧
    forceRel tag attrs = attrs := by
  simp only [attrsOkFor, Bool.and_eq_true] at hok
  obtain ⟨⟨⟨⟨⟨hA1, hA2⟩, hA3⟩, hA4⟩, hA5⟩, hA6⟩ := hok
  refine ⟨stripBad_id attrs hA1, ?_, ?_, ?_⟩
  · by_cases ta : (tag == strL "a") = true
    · have htag : tag = strL "a" := by simpa using ta
      subst htag
      rw [urlGuard_eq_a]
      refine blockUrl_id _ _ ?_
      intro v hv
      simp only [show ((strL "a" : Str) == strL "a") = true by decide, Bool.not_true,
        Bool.false_or, hv] at hA4
      exact hA4
    · have ta' : (tag == strL "a") = false := by revert ta; cases tag == strL "a" <;> simp
      by_cases ti : (tag == strL "img") = true
      · have htag : tag = strL "img" := by simpa using ti
        subst htag
        rw [urlGuard_eq_img]
        refine blockUrl_id _ _ ?_
        intro v hv
        simp only [show ((strL "img" : Str) == strL "img") = true by decide, Bool.not_true,
          Bool.false_or, hv] at hA5
        exact hA5
      · have ti' : (tag == strL "img") = false := by revert ti; cases tag == strL "img" <;> simp
        simp [urlGuard, ta', ti']
  · by_cases ti : (tag == strL "img") = true
    · have htag : tag = strL "img" := by simpa using ti
      subst htag
      simp only [show ((strL "img" : Str) == strL "img") = true by decide, Bool.not_true,
        Bool.false_or] at hA3
      rw [keepAllowed_eq_img, filter_all_id _ _ hA3,
        filter_neg_nil (fun a => !(imgKeepAttrs.contains a.1 || a.1 == strL "class")) _
          (by simpa [Bool.not_not] using hA3)]
      rfl
    · have ti' : (tag == strL "img") = false := by revert ti; cases tag == strL "img" <;> simp
      by_cases ta : (tag == strL "a") = true
      · have htag : tag = strL "a" := by simpa using ta
        subst htag
        simp only [show ((strL "a" : Str) == strL "a") = true by decide, Bool.not_true,
          Bool.false_or] at hA2
        rw [keepAllowed_eq_a, filter_all_id _ _ hA2,
          filter_neg_nil (fun a => !(aKeepAttrs.contains a.1 || a.1 == strL "class")) _
            (by simpa [Bool.not_not] using hA2)]
        rfl
      · have ta' : (tag == strL "a") = false := by revert ta; cases tag == strL "a" <;> simp
        exact keepAllowed_other_id tag attrs ti' ta'
  · by_cases ta : (tag == strL "a") = true
    · have htag : tag = strL "a" := by simpa using ta
      subst htag
      by_cases ht : (lowerS (trimS ((lookupA (strL "target") attrs).getD [])) == strL "_blank")
          = true
      · simp only [show ((strL "a" : Str) == strL "a") = true by decide, Bool.true_and, ht,
          Bool.not_true, Bool.false_or] at hA6
        unfold forceRel
        rw [if_pos (show ((strL "a" : Str) == strL "a") = true by decide), if_pos ht,
          if_pos hA6]
      · have ht' : (lowerS (trimS ((lookupA (strL "target") attrs).getD [])) == strL "_blank")
            = false := by
          revert ht
          cases lowerS (trimS ((lookupA (strL "target") attrs).getD [])) == strL "_blank" <;> simp
        unfold forceRel
        rw [if_pos (show ((strL "a" : Str) == strL "a") = true by decide),
          if_neg (by simp [ht'])]
    · have ta' : (tag == strL "a") = false := by revert ta; cases tag == strL "a" <;> simp
      exact forceRel_other_id tag attrs ta'

mutual
theorem clean_sanitizeNode : ∀ n : Node, cleanNode n = true →
    sanitizeNode n = (.cons n .nil, Metrics.zero)
  | .text s, _ => rfl
  | .elem tag attrs children, h => by
    simp only [cleanNode, Bool.and_eq_true] at h
    obtain ⟨⟨⟨⟨⟨hca, hbtn⟩, hdut⟩, hall⟩, hok⟩, hch⟩ := h
    have hca' : hasCardActionsClass attrs = false := by simpa using hca
    have hbtn' : (tag == strL "button") = false := by simpa using hbtn
    have hdut' : dangerTags.contains tag = false := by simpa using hdut
    have hm3 : ¬(tag ∈ dangerTags) := by simpa using hdut'
    have hm4 : tag ∈ allowedTags := List.elem_iff.mp hall
    obtain ⟨hp1, hp2, hp3, hp4⟩ := pipe_id tag attrs hok
    have hrec := clean_sanitizeNodes children hch
    simp only [sanitizeNode, hca', hbtn', Bool.false_eq_true, if_false, hp1, hp2, hp3, hp4,
      hrec]
    simp [hm3, hm4, Metrics.add, Metrics.zero]
theorem clean_sanitizeNodes : ∀ ns : NodeList, cleanNodes ns = true →
    sanitizeNodes ns = (ns, Metrics.zero)
  | .nil, _ => rfl
  | .cons n ns, h => by
    simp only [cleanNodes, Bool.and_eq_true] at h
    have ha := clean_sanitizeNode n h.1
    have hb := clean_sanitizeNodes ns h.2
    simp [sanitizeNodes, ha, hb, NodeList.append, Metrics.add, Metrics.zero]
end


/-! ### C2: sanitizer idempotence -/

/-- **C2** — The sanitizer is idempotent: running
`sanitize_for_publish` on the markup it produced returns that markup
unchanged, with all four metric counters of the second pass at zero. -/
theorem c2_sanitizer_idempotent (x : NodeList) :
    sanitizeNodes (sanitizeNodes x).1 = ((sanitizeNodes x).1, Metrics.zero) :=
  clean_sanitizeNodes _ (sanitizeNodes_clean x)

/-! ### C3: sanitizer safety observers -/

/-! Some element with tag `t` occurs in the tree. -/
mutual
def hasTagN (t : Str) : Node → Bool
  | .text _ => false
  | .elem tag _ cs => tag == t || hasTagL t cs
def hasTagL (t : Str) : NodeList → Bool
  | .nil => false
  | .cons n ns => hasTagN t n || hasTagL t ns
end

/-- Some attribute whose lower-cased name starts with the event prefix
`on`. -/
def hasOnAttrs (attrs : List (Str × Str)) : Bool :=
  attrs.any (fun a => (strL "on").isPrefixOf (lowerS a.1))

mutual
def hasOnAttrN : Node → Bool
  | .text _ => false
  | .elem _ attrs cs => hasOnAttrs attrs || hasOnAttrL cs
def hasOnAttrL : NodeList → Bool
  | .nil => false
  | .cons n ns => hasOnAttrN n || hasOnAttrL ns
end

/-- An `a` element whose `href` is rejected by `_is_allowed_url`. -/
def badHrefA (tag : Str) (attrs : List (Str × Str)) : Bool :=
  tag == strL "a" &&
    (match lookupA (strL "href") attrs with
      | some v => !isAllowedUrl (trimS v)
      | none => false)

/-- An `img` element whose `src` is rejected by `_is_allowed_url`. -/
def badSrcImg (tag : Str) (attrs : List (Str × Str)) : Bool :=
  tag == strL "img" &&
    (match lookupA (strL "src") attrs with
      | some v => !isAllowedUrl (trimS v)
      | none => false)

mutual
def hasBadRefN : Node → Bool
  | .text _ => false
  | .elem tag attrs cs => badHrefA tag attrs || badSrcImg tag attrs || hasBadRefL cs
def hasBadRefL : NodeList → Bool
  | .nil => false
  | .cons n ns => hasBadRefN n || hasBadRefL ns
end

/-- The wholesale-removal test of the fused pass: `.card-actions`
block, `button`, or danger tag. -/
def removableElem (tag : Str) (attrs : List (Str × Str)) : Bool :=
  hasCardActionsClass attrs || tag == strL "button" || dangerTags.contains tag

/-! An event-handler attribute on an element that is *not* inside a
wholesale-removed subtree (such an attribute is individually stripped
and counted; one inside a decomposed subtree vanishes with it,
uncounted). -/
mutual
def liveOnAttrN : Node → Bool
  | .text _ => false
  | .elem tag attrs cs =>
    if removableElem tag attrs then false
    else hasOnAttrs attrs || liveOnAttrL cs
def liveOnAttrL : NodeList → Bool
  | .nil => false
  | .cons n ns => liveOnAttrN n || liveOnAttrL ns
end

/-! A rejected `a[href]`/`img[src]` on an element not inside a
wholesale-removed subtree. -/
mutual
def liveBadRefN : Node → Bool
  | .text _ => false
  | .elem tag attrs cs =>
    if removableElem tag attrs then false
    else badHrefA tag attrs || badSrcImg tag attrs || liveBadRefL cs
def liveBadRefL : NodeList → Bool
  | .nil => false
  | .cons n ns => liveBadRefN n || liveBadRefL ns
end

/-- `javascript:` or `data:` scheme after stripping and lower-casing. -/
def isScriptSchemeUrl (v : Str) : Bool :=
  (strL "javascript:").isPrefixOf (lowerS (trimS v)) ||
    (strL "data:").isPrefixOf (lowerS (trimS v))

/-! Some attribute named `href` or `src` — on *any* element — carrying
a script-scheme or data URL (the construct the claim asserts absent
from sanitizer output). -/
def hasJsRefAttrs (attrs : List (Str × Str)) : Bool :=
  attrs.any (fun a => (a.1 == strL "href" || a.1 == strL "src") && isScriptSchemeUrl a.2)

mutual
def hasJsRefN : Node → Bool
  | .text _ => false
  | .elem _ attrs cs => hasJsRefAttrs attrs || hasJsRefL cs
def hasJsRefL : NodeList → Bool
  | .nil => false
  | .cons n ns => hasJsRefN n || hasJsRefL ns
end


/-! ### Absence of dangerous constructs in clean markup -/

theorem clean_no_onattrs (attrs : List (Str × Str))
    (h : attrs.all (fun a => !isBadAttrName a.1) = true) : hasOnAttrs attrs = false := by
  rw [List.all_eq_true] at h
  by_contra hx
  have hx' : hasOnAttrs attrs = true := by revert hx; cases hasOnAttrs attrs <;> simp
  rw [hasOnAttrs, List.any_eq_true] at hx'
  obtain ⟨a, ha, hpref⟩ := hx'
  have hbad := h a ha
  simp only [isBadAttrName, hpref, Bool.true_or, Bool.not_true] at hbad
  exact absurd hbad (by simp)

mutual
theorem cleanNode_absent : ∀ n : Node, cleanNode n = true →
    hasTagN (strL "script") n = false ∧ hasOnAttrN n = false ∧ hasBadRefN n = false
  | .text _, _ => by simp [hasTagN, hasOnAttrN, hasBadRefN]
  | .elem tag attrs children, h => by
    simp only [cleanNode, Bool.and_eq_true] at h
    obtain ⟨⟨⟨⟨⟨hca, hbtn⟩, hdut⟩, hall⟩, hok⟩, hch⟩ := h
    have hdut' : dangerTags.contains tag = false := by simpa using hdut
    obtain ⟨ih1, ih2, ih3⟩ := cleanNodes_absent children hch
    have hscript : (tag == strL "script") = false := by
      by_contra hs
      have hs' : (tag == strL "script") = true := by
        revert hs; cases tag == strL "script" <;> simp
      have htag : tag = strL "script" := by simpa using hs'
      subst htag
      rw [show (dangerTags.contains (strL "script")) = true by decide] at hdut'
      exact absurd hdut' (by simp)
    simp only [attrsOkFor, Bool.and_eq_true] at hok
    obtain ⟨⟨⟨⟨⟨hA1, _⟩, _⟩, hA4⟩, hA5⟩, _⟩ := hok
    refine ⟨?_, ?_, ?_⟩
    · simp [hasTagN, hscript, ih1]
    · simp [hasOnAttrN, clean_no_onattrs attrs hA1, ih2]
    · have hbh : badHrefA tag attrs = false := by
        unfold badHrefA
        by_cases ta : (tag == strL "a") = true
        · simp only [ta, Bool.true_and]
          simp only [ta, Bool.not_true, Bool.false_or] at hA4
          cases hv : lookupA (strL "href") attrs with
          | none => rfl
          | some v => rw [hv] at hA4; simp at hA4; simp [hA4]
        · have ta' : (tag == strL "a") = false := by revert ta; cases tag == strL "a" <;> simp
          simp [ta']
      have hbs : badSrcImg tag attrs = false := by
        unfold badSrcImg
        by_cases ti : (tag == strL "img") = true
        · simp only [ti, Bool.true_and]
          simp only [ti, Bool.not_true, Bool.false_or] at hA5
          cases hv : lookupA (strL "src") attrs with
          | none => rfl
          | some v => rw [hv] at hA5; simp at hA5; simp [hA5]
        · have ti' : (tag == strL "img") = false := by revert ti; cases tag == strL "img" <;> simp
          simp [ti']
      simp [hasBadRefN, hbh, hbs, ih3]
theorem cleanNodes_absent : ∀ ns : NodeList, cleanNodes ns = true →
    hasTagL (strL "script") ns = false ∧ hasOnAttrL ns = false ∧ hasBadRefL ns = false
  | .nil, _ => by simp [hasTagL, hasOnAttrL, hasBadRefL]
  | .cons n ns, h => by
    simp only [cleanNodes, Bool.and_eq_true] at h
    obtain ⟨h1, h2, h3⟩ := cleanNode_absent n h.1
    obtain ⟨g1, g2, g3⟩ := cleanNodes_absent ns h.2
    simp [hasTagL, hasOnAttrL, hasBadRefL, h1, h2, h3, g1, g2, g3]
end


/-! ### Metric positivity -/

theorem strip_count_pos (attrs : List (Str × Str)) (h : hasOnAttrs attrs = true) :
    1 ≤ (stripBadAttrs attrs).2 := by
  rw [hasOnAttrs, List.any_eq_true] at h
  obtain ⟨a, ha, hp⟩ := h
  have hbad : isBadAttrName a.1 = true := by simp [isBadAttrName, hp]
  have hmem : a ∈ attrs.filter (fun a => isBadAttrName a.1) := List.mem_filter.mpr ⟨ha, hbad⟩
  have hlen := List.length_pos.mpr (List.ne_nil_of_mem hmem)
  unfold stripBadAttrs
  omega

theorem strip_lookup (k : Str) (attrs : List (Str × Str)) (hk : isBadAttrName k = false) :
    lookupA k (stripBadAttrs attrs).1 = lookupA k attrs := by
  unfold stripBadAttrs
  exact lookupA_filter_true (fun n => !isBadAttrName n) k attrs (by simp [hk])

theorem badref_guard_one (tag : Str) (attrs : List (Str × Str))
    (hb : (badHrefA tag attrs || badSrcImg tag attrs) = true) :
    (urlGuard tag (stripBadAttrs attrs).1).2 = 1 := by
  rw [Bool.or_eq_true] at hb
  rcases hb with hb | hb
  · rw [badHrefA, Bool.and_eq_true] at hb
    obtain ⟨ta, hmatch⟩ := hb
    have htag : tag = strL "a" := by simpa using ta
    subst htag
    cases hv : lookupA (strL "href") attrs with
    | none => rw [hv] at hmatch; exact absurd hmatch (by simp)
    | some v =>
      rw [hv] at hmatch
      simp only at hmatch
      have hbad : isAllowedUrl (trimS v) = false := by
        revert hmatch; cases isAllowedUrl (trimS v) <;> simp
      rw [urlGuard_eq_a]
      unfold blockUrlAttr
      rw [strip_lookup _ _ (by decide), hv]
      simp [hbad]
  · rw [badSrcImg, Bool.and_eq_true] at hb
    obtain ⟨ti, hmatch⟩ := hb
    have htag : tag = strL "img" := by simpa using ti
    subst htag
    cases hv : lookupA (strL "src") attrs with
    | none => rw [hv] at hmatch; exact absurd hmatch (by simp)
    | some v =>
      rw [hv] at hmatch
      simp only at hmatch
      have hbad : isAllowedUrl (trimS v) = false := by
        revert hmatch; cases isAllowedUrl (trimS v) <;> simp
      rw [urlGuard_eq_img]
      unfold blockUrlAttr
      rw [strip_lookup _ _ (by decide), hv]
      simp [hbad]

mutual
theorem script_metric_node : ∀ n : Node, hasTagN (strL "script") n = true →
    1 ≤ (sanitizeNode n).2.removedNodes
  | .elem tag attrs children, h => by
    by_cases h1 : hasCardActionsClass attrs = true
    · simp [sanitizeNode, h1]
    · have h1' : hasCardActionsClass attrs = false := by
        revert h1; cases hasCardActionsClass attrs <;> simp
      by_cases h2 : (tag == strL "button") = true
      · simp [sanitizeNode, h1', h2]
      · have h2' : (tag == strL "button") = false := by
          revert h2; cases tag == strL "button" <;> simp
        by_cases hm3 : tag ∈ dangerTags
        · simp [sanitizeNode, h1', h2', hm3]
        · have hscript : (tag == strL "script") = false := by
            by_contra hs
            have hs' : (tag == strL "script") = true := by
              revert hs; cases tag == strL "script" <;> simp
            have htag : tag = strL "script" := by simpa using hs'
            subst htag
            exact hm3 (by decide)
          simp only [hasTagN, hscript, Bool.false_or] at h
          have ih := script_metric_list children h
          by_cases hm4 : tag ∈ allowedTags
          · refine le_trans ih ?_
            simp [sanitizeNode, h1', h2', hm3, hm4, Metrics.add]
          · refine le_trans ih ?_
            simp [sanitizeNode, h1', h2', hm3, hm4, Metrics.add]
theorem script_metric_list : ∀ ns : NodeList, hasTagL (strL "script") ns = true →
    1 ≤ (sanitizeNodes ns).2.removedNodes
  | .cons n ns, h => by
    simp only [hasTagL, Bool.or_eq_true] at h
    rcases h with h | h
    · refine le_trans (script_metric_node n h) ?_
      simp [sanitizeNodes, Metrics.add]
    · refine le_trans (script_metric_list ns h) ?_
      simp [sanitizeNodes, Metrics.add]
end

mutual
theorem liveOn_metric_node : ∀ n : Node, liveOnAttrN n = true →
    1 ≤ (sanitizeNode n).2.removedAttrs
  | .elem tag attrs children, h => by
    simp only [liveOnAttrN] at h
    by_cases hr : removableElem tag attrs = true
    · rw [if_pos hr] at h
      exact absurd h (by simp)
    · have hr' : removableElem tag attrs = false := by
        revert hr; cases removableElem tag attrs <;> simp
      rw [if_neg (by simp [hr'])] at h
      simp only [removableElem, Bool.or_eq_true, not_or] at hr
      have h1' : hasCardActionsClass attrs = false := by
        revert hr'; simp only [removableElem]
        cases hasCardActionsClass attrs <;> simp
      have h2' : (tag == strL "button") = false := by
        revert hr'; simp only [removableElem]
        cases tag == strL "button" <;> cases hasCardActionsClass attrs <;> simp
      have h3' : dangerTags.contains tag = false := by
        revert hr'; simp only [removableElem]
        cases dangerTags.contains tag <;> simp
      have hm3 : ¬ tag ∈ dangerTags := by simpa using h3'
      rw [Bool.or_eq_true] at h
      rcases h with h | h
      · have hs := strip_count_pos attrs h
        by_cases hm4 : tag ∈ allowedTags
        · refine le_trans hs ?_
          simp [sanitizeNode, h1', h2', hm3, hm4, Metrics.add]
          omega
        · refine le_trans hs ?_
          simp [sanitizeNode, h1', h2', hm3, hm4, Metrics.add]
      · have ih := liveOn_metric_list children h
        by_cases hm4 : tag ∈ allowedTags
        · refine le_trans ih ?_
          simp [sanitizeNode, h1', h2', hm3, hm4, Metrics.add]
        · refine le_trans ih ?_
          simp [sanitizeNode, h1', h2', hm3, hm4, Metrics.add]
theorem liveOn_metric_list : ∀ ns : NodeList, liveOnAttrL ns = true →
    1 ≤ (sanitizeNodes ns).2.removedAttrs
  | .cons n ns, h => by
    simp only [liveOnAttrL, Bool.or_eq_true] at h
    rcases h with h | h
    · refine le_trans (liveOn_metric_node n h) ?_
      simp [sanitizeNodes, Metrics.add]
    · refine le_trans (liveOn_metric_list ns h) ?_
      simp [sanitizeNodes, Metrics.add]
end

mutual
theorem liveBad_metric_node : ∀ n : Node, liveBadRefN n = true →
    1 ≤ (sanitizeNode n).2.blockedUrls
  | .elem tag attrs children, h => by
    simp only [liveBadRefN] at h
    by_cases hr : removableElem tag attrs = true
    · rw [if_pos hr] at h
      exact absurd h (by simp)
    · have hr' : removableElem tag attrs = false := by
        revert hr; cases removableElem tag attrs <;> simp
      rw [if_neg (by simp [hr'])] at h
      have h1' : hasCardActionsClass attrs = false := by
        revert hr'; simp only [removableElem]
        cases hasCardActionsClass attrs <;> simp
      have h2' : (tag == strL "button") = false := by
        revert hr'; simp only [removableElem]
        cases tag == strL "button" <;> cases hasCardActionsClass attrs <;> simp
      have h3' : dangerTags.contains tag = false := by
        revert hr'; simp only [removableElem]
        cases dangerTags.contains tag <;> simp
      have hm3 : ¬ tag ∈ dangerTags := by simpa using h3'
      rw [Bool.or_eq_true] at h
      rcases h with h | h
      · have hg := badref_guard_one tag attrs h
        by_cases hm4 : tag ∈ allowedTags
        · have : (sanitizeNode (.elem tag attrs children)).2.blockedUrls =
              (sanitizeNodes children).2.blockedUrls +
                (urlGuard tag (stripBadAttrs attrs).1).2 := by
            simp [sanitizeNode, h1', h2', hm3, hm4, Metrics.add]
          rw [this, hg]
          omega
        · have : (sanitizeNode (.elem tag attrs children)).2.blockedUrls =
              (sanitizeNodes children).2.blockedUrls +
                (urlGuard tag (stripBadAttrs attrs).1).2 := by
            simp [sanitizeNode, h1', h2', hm3, hm4, Metrics.add]
          rw [this, hg]
          omega
      · have ih := liveBad_metric_list children h
        by_cases hm4 : tag ∈ allowedTags
        · refine le_trans ih ?_
          simp [sanitizeNode, h1', h2', hm3, hm4, Metrics.add]
        · refine le_trans ih ?_
          simp [sanitizeNode, h1', h2', hm3, hm4, Metrics.add]
theorem liveBad_metric_list : ∀ ns : NodeList, liveBadRefL ns = true →
    1 ≤ (sanitizeNodes ns).2.blockedUrls
  | .cons n ns, h => by
    simp only [liveBadRefL, Bool.or_eq_true] at h
    rcases h with h | h
    · refine le_trans (liveBad_metric_node n h) ?_
      simp [sanitizeNodes, Metrics.add]
    · refine le_trans (liveBad_metric_list ns h) ?_
      simp [sanitizeNodes, Metrics.add]
end


/-- A rejected `a[href]` only loses the attribute: the element itself
is kept (when it is not itself removed as a `.card-actions` block). -/
theorem a_bad_href_kept (attrs : List (Str × Str)) (children : NodeList) (v : Str)
    (hca : hasCardActionsClass attrs = false)
    (hv : lookupA (strL "href") attrs = some v)
    (hbad : isAllowedUrl (trimS v) = false) :
    ∃ attrs2 cs2 m, sanitizeNode (.elem (strL "a") attrs children) =
      (.cons (.elem (strL "a") attrs2 cs2) .nil, m) ∧
      lookupA (strL "href") attrs2 = none ∧ 1 ≤ m.blockedUrls := by
  refine ⟨forceRel (strL "a")
      (keepAllowedAttrs (strL "a") (urlGuard (strL "a") (stripBadAttrs attrs).1).1).1,
    (sanitizeNodes children).1, (sanitizeNode (.elem (strL "a") attrs children)).2,
    ?_, ?_, ?_⟩
  · simp [sanitizeNode, hca, show ((strL "a" : Str) == strL "button") = false by decide,
      show ¬ ((strL "a" : Str) ∈ dangerTags) by decide,
      show ((strL "a" : Str) ∈ allowedTags) by decide]
  · rw [forceRel_lookup_ne _ _ _ (by decide), keepAllowed_a_lookup _ _ (by decide),
      urlGuard_eq_a]
    unfold blockUrlAttr
    rw [strip_lookup _ _ (by decide), hv]
    simp only [hbad, Bool.false_eq_true, if_false]
    exact lookupA_filter_false (fun n => !(n == strL "href")) _ _ (by simp)
  · have hg : (urlGuard (strL "a") (stripBadAttrs attrs).1).2 = 1 := by
      rw [urlGuard_eq_a]
      unfold blockUrlAttr
      rw [strip_lookup _ _ (by decide), hv]
      simp [hbad]
    have hm : (sanitizeNode (.elem (strL "a") attrs children)).2.blockedUrls =
        (sanitizeNodes children).2.blockedUrls +
          (urlGuard (strL "a") (stripBadAttrs attrs).1).2 := by
      simp [sanitizeNode, hca, show ((strL "a" : Str) == strL "button") = false by decide,
        show ¬ ((strL "a" : Str) ∈ dangerTags) by decide,
        show ((strL "a" : Str) ∈ allowedTags) by decide, Metrics.add]
    rw [hm, hg]
    omega

theorem img_bad_src_kept (attrs : List (Str × Str)) (children : NodeList) (v : Str)
    (hca : hasCardActionsClass attrs = false)
    (hv : lookupA (strL "src") attrs = some v)
    (hbad : isAllowedUrl (trimS v) = false) :
    ∃ attrs2 cs2 m, sanitizeNode (.elem (strL "img") attrs children) =
      (.cons (.elem (strL "img") attrs2 cs2) .nil, m) ∧
      lookupA (strL "src") attrs2 = none ∧ 1 ≤ m.blockedUrls := by
  refine ⟨forceRel (strL "img")
      (keepAllowedAttrs (strL "img") (urlGuard (strL "img") (stripBadAttrs attrs).1).1).1,
    (sanitizeNodes children).1, (sanitizeNode (.elem (strL "img") attrs children)).2,
    ?_, ?_, ?_⟩
  · simp [sanitizeNode, hca, show ((strL "img" : Str) == strL "button") = false by decide,
      show ¬ ((strL "img" : Str) ∈ dangerTags) by decide,
      show ((strL "img" : Str) ∈ allowedTags) by decide]
  · rw [forceRel_other_id _ _ (by decide), keepAllowed_img_lookup _ _ (by decide),
      urlGuard_eq_img]
    unfold blockUrlAttr
    rw [strip_lookup _ _ (by decide), hv]
    simp only [hbad, Bool.false_eq_true, if_false]
    exact lookupA_filter_false (fun n => !(n == strL "src")) _ _ (by simp)
  · have hg : (urlGuard (strL "img") (stripBadAttrs attrs).1).2 = 1 := by
      rw [urlGuard_eq_img]
      unfold blockUrlAttr
      rw [strip_lookup _ _ (by decide), hv]
      simp [hbad]
    have hm : (sanitizeNode (.elem (strL "img") attrs children)).2.blockedUrls =
        (sanitizeNodes children).2.blockedUrls +
          (urlGuard (strL "img") (stripBadAttrs attrs).1).2 := by
      simp [sanitizeNode, hca, show ((strL "img" : Str) == strL "button") = false by decide,
        show ¬ ((strL "img" : Str) ∈ dangerTags) by decide,
        show ((strL "img" : Str) ∈ allowedTags) by decide, Metrics.add]
    rw [hm, hg]
    omega


/-! ### C3: the safety claim -/

/-- **C3 (amended)** — Sanitizer safety as the code implements it.  The
output of `sanitize_for_publish` never contains a script element, an
attribute whose name begins with `on`, a rejected `a[href]` or a
rejected `img[src]`.  For the metrics: a script element anywhere makes
`removed_nodes` non-zero; an event-handler attribute on an element that
is not itself wholesale-removed (not a `.card-actions` block, `button`
or danger tag, nor inside one) makes `removed_attrs` non-zero; a
`javascript:`/`data:` (or otherwise rejected) URL in `a[href]`/
`img[src]` on such an element makes `blocked_urls` non-zero; and a
rejected `a[href]` or `img[src]` loses only the attribute — the
element itself is kept.  (The unamended per-construct metric guarantee fails for
constructs inside removed subtrees, and URL checking does not extend to
`href`/`src` spelled on other tags; see the counterexample.) -/
theorem c3_sanitizer_safety (ns : NodeList) :
    hasTagL (strL "script") (sanitizeNodes ns).1 = false ∧
    hasOnAttrL (sanitizeNodes ns).1 = false ∧
    hasBadRefL (sanitizeNodes ns).1 = false ∧
    (hasTagL (strL "script") ns = true → 1 ≤ (sanitizeNodes ns).2.removedNodes) ∧
    (liveOnAttrL ns = true → 1 ≤ (sanitizeNodes ns).2.removedAttrs) ∧
    (liveBadRefL ns = true → 1 ≤ (sanitizeNodes ns).2.blockedUrls) ∧
    (∀ attrs children v, hasCardActionsClass attrs = false →
      lookupA (strL "href") attrs = some v → isAllowedUrl (trimS v) = false →
      ∃ attrs2 cs2 m, sanitizeNode (.elem (strL "a") attrs children) =
        (.cons (.elem (strL "a") attrs2 cs2) .nil, m) ∧
        lookupA (strL "href") attrs2 = none ∧ 1 ≤ m.blockedUrls) ∧
    (∀ attrs children v, hasCardActionsClass attrs = false →
      lookupA (strL "src") attrs = some v → isAllowedUrl (trimS v) = false →
      ∃ attrs2 cs2 m, sanitizeNode (.elem (strL "img") attrs children) =
        (.cons (.elem (strL "img") attrs2 cs2) .nil, m) ∧
        lookupA (strL "src") attrs2 = none ∧ 1 ≤ m.blockedUrls) := by
  obtain ⟨ha, hb, hc⟩ := cleanNodes_absent _ (sanitizeNodes_clean ns)
  exact ⟨ha, hb, hc, script_metric_list ns, liveOn_metric_list ns, liveBad_metric_list ns,
    fun attrs children v h1 h2 h3 => a_bad_href_kept attrs children v h1 h2 h3,
    fun attrs children v h1 h2 h3 => img_bad_src_kept attrs children v h1 h2 h3⟩

/-- Witness for C3: a lone script element, a live `onclick`, a blocked
`javascript:` link, and a blocked `javascript:` image source with the
`a` and `img` elements kept. -/
theorem c3_sanitizer_safety_witness :
    (1 ≤ (sanitizeNodes (.cons (.elem (strL "script") [] .nil) .nil)).2.removedNodes) ∧
    (1 ≤ (sanitizeNodes (.cons (.elem (strL "p") [(strL "onclick", strL "x")] .nil)
      .nil)).2.removedAttrs) ∧
    (1 ≤ (sanitizeNodes (.cons (.elem (strL "a") [(strL "href", strL "javascript:x")] .nil)
      .nil)).2.blockedUrls) ∧
    (∃ attrs2 cs2 m, sanitizeNode (.elem (strL "a") [(strL "href", strL "javascript:x")] .nil) =
      (.cons (.elem (strL "a") attrs2 cs2) .nil, m) ∧
      lookupA (strL "href") attrs2 = none ∧ 1 ≤ m.blockedUrls) ∧
    (∃ attrs2 cs2 m, sanitizeNode (.elem (strL "img") [(strL "src", strL "javascript:x")] .nil) =
      (.cons (.elem (strL "img") attrs2 cs2) .nil, m) ∧
      lookupA (strL "src") attrs2 = none ∧ 1 ≤ m.blockedUrls) :=
  ⟨(c3_sanitizer_safety (.cons (.elem (strL "script") [] .nil) .nil)).2.2.2.1 (by decide),
   (c3_sanitizer_safety (.cons (.elem (strL "p") [(strL "onclick", strL "x")] .nil)
      .nil)).2.2.2.2.1 (by decide),
   (c3_sanitizer_safety (.cons (.elem (strL "a") [(strL "href", strL "javascript:x")] .nil)
      .nil)).2.2.2.2.2.1 (by decide),
   (c3_sanitizer_safety .nil).2.2.2.2.2.2.1 [(strL "href", strL "javascript:x")] .nil
     (strL "javascript:x") (by decide) (by decide) (by decide),
   (c3_sanitizer_safety .nil).2.2.2.2.2.2.2 [(strL "src", strL "javascript:x")] .nil
     (strL "javascript:x") (by decide) (by decide) (by decide)⟩

/-- **C3 counterexample** — The claim as stated fails on the concrete
input `<script onclick="x"></script><div href="javascript:z"></div>`:
the input contains an event-handler attribute, yet `removed_attrs` is
`0` (the attribute sat on a wholesale-removed element); it contains an
`href` URL with the `javascript:` scheme, yet `blocked_urls` is `0` and
the construct survives in the output (the URL check only covers
`a[href]` and `img[src]`, and `href` on a `div` is neither). -/
theorem c3_sanitizer_safety_counterexample :
    hasOnAttrL (.cons (.elem (strL "script") [(strL "onclick", strL "x")] .nil)
        (.cons (.elem (strL "div") [(strL "href", strL "javascript:z")] .nil) .nil)) = true ∧
    hasJsRefL (.cons (.elem (strL "script") [(strL "onclick", strL "x")] .nil)
        (.cons (.elem (strL "div") [(strL "href", strL "javascript:z")] .nil) .nil)) = true ∧
    (sanitizeNodes (.cons (.elem (strL "script") [(strL "onclick", strL "x")] .nil)
        (.cons (.elem (strL "div") [(strL "href", strL "javascript:z")] .nil)
          .nil))).2.removedAttrs = 0 ∧
    (sanitizeNodes (.cons (.elem (strL "script") [(strL "onclick", strL "x")] .nil)
        (.cons (.elem (strL "div") [(strL "href", strL "javascript:z")] .nil)
          .nil))).2.blockedUrls = 0 ∧
    hasJsRefL (sanitizeNodes (.cons (.elem (strL "script") [(strL "onclick", strL "x")] .nil)
        (.cons (.elem (strL "div") [(strL "href", strL "javascript:z")] .nil)
          .nil))).1 = true := by
  refine ⟨by decide, by decide, by decide, by decide, by decide⟩


/-! ## Aggregate render order: `MasterApi._push_master_to_resource`
and `builder.render_master_index`

`_push_master_to_resource` walks the master document's `div.card`
blocks in document order, skips blocks whose `h2` text is empty, and
appends every non-hidden card to `cards_for_master`;
`render_master_index` renders that list in the order received (its own
comment: ordering is the caller's responsibility, the SSOT is the
`master_content` order), skipping hidden entries again.
`MasterApi._card_sort_key` computes `(order or 1000, title.lower())`
but no caller invokes it. -/

/-- One parsed card block, as the push loop sees it: `h2` title,
`data-order`, `data-hidden`, and its inner markup. -/
structure AggCard where
  title : Str
  order : Option Int
  hidden : Bool
  inner : Str
deriving DecidableEq

/-- `MasterApi._card_sort_key`: `(order if parseable else 1000,
title.lower())`.  Defined by the code but never applied. -/
def cardSortKey (c : AggCard) : Int × Str := (c.order.getD 1000, lowerS c.title)

/-- Lexicographic `≤` on character lists (Python string order). -/
def lexLe (a b : Str) : Bool := !lexLt b a

/-- The order the claim asserts for the rendered aggregate list:
explicit `order` ascending, cards without explicit order after all
explicitly ordered ones, ties by case-insensitive title.  (Stated from
the claim, to be compared with what the code produces.) -/
def claimLeB (a b : AggCard) : Bool :=
  match a.order, b.order with
  | some x, some y =>
    decide (x < y) || (decide (x = y) && lexLe (lowerS a.title) (lowerS b.title))
  | some _, none => true
  | none, some _ => false
  | none, none => lexLe (lowerS a.title) (lowerS b.title)

/-- The `cards_for_master` list built by `_push_master_to_resource`:
document order, skipping empty titles and hidden cards. -/
def pushRenderList (cards : List AggCard) : List AggCard :=
  cards.filter (fun c => !c.title.isEmpty && !c.hidden)

/-- The card blocks `render_master_index` actually renders, in order:
the received list minus hidden entries. -/
def renderMasterKept (folders : List AggCard) : List AggCard :=
  folders.filter (fun f => !f.hidden)

/-- **C1 (amended)** — The aggregate render list is *not* sorted: it is
exactly the subsequence of the master document's cards with a non-empty
title and no hidden flag, in document order, and `render_master_index`
renders it unchanged.  (`_card_sort_key` exists but is never invoked;
see the counterexample for the claimed `(order, title)` sortedness
failing.) -/
theorem c1_aggregate_order_is_document_order (cards : List AggCard) :
    renderMasterKept (pushRenderList cards) = pushRenderList cards ∧
    List.Sublist (pushRenderList cards) cards ∧
    (pushRenderList cards).all (fun c => !c.title.isEmpty && !c.hidden) = true := by
  refine ⟨?_, List.filter_sublist _, ?_⟩
  · refine List.filter_eq_self.mpr ?_
    intro c hc
    have := (List.mem_filter.mp hc).2
    simp only [Bool.and_eq_true] at this
    exact this.2
  · rw [List.all_eq_true]
    intro c hc
    exact (List.mem_filter.mp hc).2

/-- **C1 counterexample** — With the master document holding the
non-hidden cards `b` (order 2) then `a` (order 1), the render list
keeps that document order, so it is not sorted by
`(order ascending, title case-insensitive ascending)`. -/
theorem c1_aggregate_order_counterexample :
    ¬ List.Pairwise (fun a b => claimLeB a b = true)
      (renderMasterKept (pushRenderList
        [⟨strL "b", some 2, false, []⟩, ⟨strL "a", some 1, false, []⟩])) := by
  decide


/-! ## AtomicWriter: `backend/fsutil.py`

`atomic_write_bytes` / `atomic_write_text` (identical control flow, the
text variant encodes first): `makedirs`; `mkstemp` a fresh sibling;
write + flush + fsync the temporary; optionally `chmod` it to the
destination's mode (a missing destination is ignored); `os.replace`
onto the destination and fsync the directory (directory-fsync errors
are swallowed).  On any exception the temporary file is unlinked and
the exception re-raised.  The filesystem is modelled as a partial map
from path to contents, and one failure injection point per fallible
step. -/

/-- A filesystem: path to contents. -/
def FileSys : Type := Str → Option Str

def fsSet (fs : FileSys) (p v : Str) : FileSys := fun q => if q = p then some v else fs q

def fsDel (fs : FileSys) (p : Str) : FileSys := fun q => if q = p then none else fs q

/-- Where the call fails, if anywhere.  `writeRaise part` is an
interrupted write that left `part` in the temporary file before the
exception. -/
inductive WriteFail where
  | mkdirsRaise
  | writeRaise (part : Str)
  | flushRaise
  | chmodRaise
  | replaceRaise
  | ok
deriving DecidableEq

/-- One `atomic_write_*` call writing `data` to `dst` via the fresh
temporary `tmp`, failing (or not) at `fail`; returns the resulting
filesystem and whether the call returned normally. -/
def atomicWrite (fs : FileSys) (dst tmp data : Str) : WriteFail → FileSys × Bool
  | .mkdirsRaise => (fs, false)
  | .writeRaise part => (fsDel (fsSet fs tmp part) tmp, false)
  | .flushRaise => (fsDel (fsSet fs tmp data) tmp, false)
  | .chmodRaise => (fsDel (fsSet fs tmp data) tmp, false)
  | .replaceRaise => (fsDel (fsSet fs tmp data) tmp, false)
  | .ok => (fsDel (fsSet (fsSet fs tmp data) dst data) tmp, true)

/-- **C7** — Atomic write failure safety: when the call fails at any
step, the destination's contents are untouched, the temporary sibling
is gone, and the call reports failure; every other path is untouched
too; and in every outcome the destination holds either its old contents
or the full new data — never a partial write. -/
theorem c7_atomic_write_failure_safe (fs : FileSys) (dst tmp data : Str)
    (fail : WriteFail) (hne : tmp ≠ dst) (hfresh : fs tmp = none) :
    (fail ≠ .ok →
      (atomicWrite fs dst tmp data fail).1 dst = fs dst ∧
      (atomicWrite fs dst tmp data fail).1 tmp = none ∧
      (atomicWrite fs dst tmp data fail).2 = false) ∧
    ((atomicWrite fs dst tmp data fail).1 dst = fs dst ∨
      (atomicWrite fs dst tmp data fail).1 dst = some data) ∧
    (fail = .ok →
      (atomicWrite fs dst tmp data fail).1 dst = some data ∧
      (atomicWrite fs dst tmp data fail).1 tmp = none) ∧
    (∀ p, p ≠ tmp → p ≠ dst → (atomicWrite fs dst tmp data fail).1 p = fs p) := by
  have hdt : ¬ dst = tmp := fun h => hne h.symm
  cases fail with
  | mkdirsRaise => exact ⟨fun _ => ⟨rfl, hfresh, rfl⟩, Or.inl rfl, by simp,
      fun p h1 h2 => rfl⟩
  | writeRaise part =>
    refine ⟨fun _ => ⟨?_, by simp [atomicWrite, fsDel], rfl⟩, Or.inl ?_, by simp,
      fun p h1 h2 => ?_⟩
    · simp [atomicWrite, fsDel, fsSet, hdt]
    · simp [atomicWrite, fsDel, fsSet, hdt]
    · simp [atomicWrite, fsDel, fsSet, h1, h2]
  | flushRaise =>
    refine ⟨fun _ => ⟨?_, by simp [atomicWrite, fsDel], rfl⟩, Or.inl ?_, by simp,
      fun p h1 h2 => ?_⟩
    · simp [atomicWrite, fsDel, fsSet, hdt]
    · simp [atomicWrite, fsDel, fsSet, hdt]
    · simp [atomicWrite, fsDel, fsSet, h1, h2]
  | chmodRaise =>
    refine ⟨fun _ => ⟨?_, by simp [atomicWrite, fsDel], rfl⟩, Or.inl ?_, by simp,
      fun p h1 h2 => ?_⟩
    · simp [atomicWrite, fsDel, fsSet, hdt]
    · simp [atomicWrite, fsDel, fsSet, hdt]
    · simp [atomicWrite, fsDel, fsSet, h1, h2]
  | replaceRaise =>
    refine ⟨fun _ => ⟨?_, by simp [atomicWrite, fsDel], rfl⟩, Or.inl ?_, by simp,
      fun p h1 h2 => ?_⟩
    · simp [atomicWrite, fsDel, fsSet, hdt]
    · simp [atomicWrite, fsDel, fsSet, hdt]
    · simp [atomicWrite, fsDel, fsSet, h1, h2]
  | ok =>
    refine ⟨fun hno => absurd rfl hno, Or.inr ?_, fun _ => ⟨?_, ?_⟩, fun p h1 h2 => ?_⟩
    · simp [atomicWrite, fsDel, fsSet, hdt]
    · simp [atomicWrite, fsDel, fsSet, hdt]
    · simp [atomicWrite, fsDel, fsSet]
    · simp [atomicWrite, fsDel, fsSet, h1, h2]

/-- Witness for C7: an interrupted write leaves `"old"` at the
destination and no temporary. -/
theorem c7_atomic_write_failure_safe_witness :
    (atomicWrite (fun p => if p = strL ".tmp-1" then none else some (strL "old"))
      (strL "d") (strL ".tmp-1") (strL "new")
      (.writeRaise (strL "ne"))).1 (strL "d") = some (strL "old") ∧
    (atomicWrite (fun p => if p = strL ".tmp-1" then none else some (strL "old"))
      (strL "d") (strL ".tmp-1") (strL "new")
      (.writeRaise (strL "ne"))).1 (strL ".tmp-1") = none ∧
    (atomicWrite (fun p => if p = strL ".tmp-1" then none else some (strL "old"))
      (strL "d") (strL ".tmp-1") (strL "new")
      (.writeRaise (strL "ne"))).2 = false ∧
    (atomicWrite (fun p => if p = strL ".tmp-1" then none else some (strL "old"))
      (strL "d") (strL ".tmp-1") (strL "new")
      .ok).1 (strL "d") = some (strL "new") :=
  have h := c7_atomic_write_failure_safe (fun p => if p = strL ".tmp-1" then none
      else some (strL "old")) (strL "d")
    (strL ".tmp-1") (strL "new") (.writeRaise (strL "ne")) (by decide) (by decide)
  have hok := c7_atomic_write_failure_safe (fun p => if p = strL ".tmp-1" then none
      else some (strL "old")) (strL "d")
    (strL ".tmp-1") (strL "new") .ok (by decide) (by decide)
  ⟨(h.1 (by decide)).1, (h.1 (by decide)).2.1, (h.1 (by decide)).2.2,
    (hok.2.2.1 rfl).1⟩

/-! ## PublishLock: `backend/lockutil.py` and `MasterApi.sync`

`SyncLock.__enter__`: if the lock file exists and its age exceeds
`stale_after`, unlink it (once); then `os.open(..., O_CREAT|O_EXCL)` —
an existing file raises `SyncLockError("locked")`, a distinct outcome
from any other exception; on success the pid and timestamp are written.
`MasterApi.sync` runs its whole body inside `with SyncLock(...)`; on
`SyncLockError` it returns the locked result without having read or
written anything. -/

/-- The lock file: modification time (what staleness reads) and the
recorded holder pid. -/
structure LockInfo where
  mtime : Int
  pid : Int
deriving DecidableEq

/-- Acquisition either succeeds or reports the distinct locked
condition (`SyncLockError("locked")`); no other outcome exists. -/
inductive AcqResult where
  | acquired
  | locked
deriving DecidableEq

/-- `SyncLock.__enter__` for one process at time `now`: result, new
lock-file state, and how many stale lock files were removed. -/
def lockAcquire (st : Option LockInfo) (now pid staleAfter : Int) :
    AcqResult × Option LockInfo × Nat :=
  match st with
  | none => (.acquired, some ⟨now, pid⟩, 0)
  | some lf =>
    if now - lf.mtime > staleAfter then (.acquired, some ⟨now, pid⟩, 1)
    else (.locked, some lf, 0)

/-- The outcome `MasterApi.sync` reports: either the body ran, or the
dedicated locked result. -/
inductive SyncOut where
  | ran
  | locked
deriving DecidableEq

/-- `MasterApi.sync`'s locking skeleton: `body` stands for the
reads/writes the sync body would perform; none of them happen when the
lock is held elsewhere. -/
def syncUnderLock (st : Option LockInfo) (now pid staleAfter : Int)
    (body : List Str) : SyncOut × List Str × Nat :=
  match lockAcquire st now pid staleAfter with
  | (.locked, _, k) => (.locked, [], k)
  | (.acquired, _, k) => (.ran, body, k)

/-- **C8** — Lock semantics: a fresh (not stale) existing lock makes
acquisition fail with the distinct locked outcome and `sync` performs
no reads or writes and returns the locked result with zero removals; a
stale lock is removed exactly once and acquisition then succeeds; with
no lock file acquisition succeeds without removals. -/
theorem c8_lock_acquisition_semantics (lf : LockInfo) (now pid staleAfter : Int)
    (body : List Str) :
    (¬ (now - lf.mtime > staleAfter) →
      lockAcquire (some lf) now pid staleAfter = (.locked, some lf, 0) ∧
      syncUnderLock (some lf) now pid staleAfter body = (.locked, [], 0)) ∧
    (now - lf.mtime > staleAfter →
      lockAcquire (some lf) now pid staleAfter = (.acquired, some ⟨now, pid⟩, 1) ∧
      syncUnderLock (some lf) now pid staleAfter body = (.ran, body, 1)) ∧
    lockAcquire none now pid staleAfter = (.acquired, some ⟨now, pid⟩, 0) := by
  refine ⟨fun hfresh => ?_, fun hstale => ?_, rfl⟩
  · have h : lockAcquire (some lf) now pid staleAfter = (.locked, some lf, 0) := by
      simp [lockAcquire, hfresh]
    exact ⟨h, by simp [syncUnderLock, h]⟩
  · have h : lockAcquire (some lf) now pid staleAfter = (.acquired, some ⟨now, pid⟩, 1) := by
      simp [lockAcquire, hstale]
    exact ⟨h, by simp [syncUnderLock, h]⟩

/-- Witness for C8 at `mtime = 0`, `now = 10`: fresh with
`staleAfter = 3600`, stale with `staleAfter = 5`. -/
theorem c8_lock_acquisition_semantics_witness :
    syncUnderLock (some ⟨0, 1⟩) 10 2 3600 [strL "write"] = (.locked, [], 0) ∧
    syncUnderLock (some ⟨0, 1⟩) 10 2 5 [strL "write"] = (.ran, [strL "write"], 1) :=
  ⟨((c8_lock_acquisition_semantics ⟨0, 1⟩ 10 2 3600 [strL "write"]).1 (by decide)).2,
   ((c8_lock_acquisition_semantics ⟨0, 1⟩ 10 2 5 [strL "write"]).2.1 (by decide)).2⟩


/-! ## Registry loading: `CardRegistry.load` and
`MasterApi._load_id_registry`

Both readers are the same total function over the state of the registry
file: missing file, unreadable file, blank text, unparsable JSON and
non-dict JSON all collapse to the empty registry
`{"version": 1, "items": []}`; a dict is patched in place — a missing
`"version"` key is appended with value `1`, and a missing or non-list
`"items"` key is set to the empty list — preserving all other keys. -/

/-- JSON values. -/
inductive Jv where
  | null
  | jbool (b : Bool)
  | jnum (n : Int)
  | jstr (s : Str)
  | jarr (items : List Jv)
  | jobj (fields : List (Str × Jv))

/-- What reading the registry file can yield, before shape fixing. -/
inductive RegFile where
  | missing
  | readRaise
  | emptyText
  | parseRaise
  | parsed (j : Jv)

/-- `{"version": 1, "items": []}`. -/
def emptyRegistry : Jv := .jobj [(strL "version", .jnum 1), (strL "items", .jarr [])]

def lookupJ (k : Str) : List (Str × Jv) → Option Jv
  | [] => none
  | f :: rest => if f.1 == k then some f.2 else lookupJ k rest

/-- Python dict assignment: replace in place, or append a new key. -/
def setJ (k : Str) (v : Jv) : List (Str × Jv) → List (Str × Jv)
  | [] => [(k, v)]
  | f :: rest => if f.1 == k then (k, v) :: rest else f :: setJ k v rest

/-- `CardRegistry.load` / `MasterApi._load_id_registry`. -/
def loadRegistry : RegFile → Jv
  | .missing => emptyRegistry
  | .readRaise => emptyRegistry
  | .emptyText => emptyRegistry
  | .parseRaise => emptyRegistry
  | .parsed j =>
    match j with
    | .jobj fields =>
      let f1 := if (lookupJ (strL "version") fields).isSome then fields
        else fields ++ [(strL "version", .jnum 1)]
      let f2 := match lookupJ (strL "items") f1 with
        | some (.jarr _) => f1
        | _ => setJ (strL "items") (.jarr []) f1
      .jobj f2
    | _ => emptyRegistry

theorem lookupJ_append_none (k : Str) :
    ∀ l1 l2 : List (Str × Jv), lookupJ k l1 = none → lookupJ k (l1 ++ l2) = lookupJ k l2
  | [], _, _ => rfl
  | f :: rest, l2, h => by
    by_cases hf : (f.1 == k) = true
    · simp [lookupJ, hf] at h
    · have hf' : (f.1 == k) = false := by revert hf; cases f.1 == k <;> simp
      simp only [lookupJ, hf'] at h
      simp only [List.cons_append, lookupJ, hf', Bool.false_eq_true, if_false]
      exact lookupJ_append_none k rest l2 h

theorem lookupJ_setJ_self (k : Str) (v : Jv) :
    ∀ l : List (Str × Jv), lookupJ k (setJ k v l) = some v
  | [] => by simp [setJ, lookupJ]
  | f :: rest => by
    by_cases hf : (f.1 == k) = true
    · simp [setJ, hf, lookupJ]
    · have hf' : (f.1 == k) = false := by revert hf; cases f.1 == k <;> simp
      simp [setJ, hf', lookupJ, lookupJ_setJ_self k v rest]

theorem lookupJ_setJ_ne (k' k : Str) (v : Jv) (h : (k' == k) = false) :
    ∀ l : List (Str × Jv), lookupJ k' (setJ k v l) = lookupJ k' l
  | [] => by
    have : (k == k') = false := by
      rw [beq_eq_false_iff_ne] at h ⊢
      exact fun he => h he.symm
    simp [setJ, lookupJ, this]
  | f :: rest => by
    by_cases hf : (f.1 == k) = true
    · have hfk : f.1 = k := by simpa using hf
      have h1 : (k == k') = false := by
        rw [beq_eq_false_iff_ne] at h ⊢
        exact fun he => h he.symm
      have h2 : (f.1 == k') = false := by rw [hfk]; exact h1
      simp [setJ, hf, lookupJ, h1, h2]
    · have hf' : (f.1 == k) = false := by revert hf; cases f.1 == k <;> simp
      simp [setJ, hf', lookupJ, lookupJ_setJ_ne k' k v h rest]

/-- **C10** — Loading the consolidated registry is total: whatever the
file state, the result is a JSON object with a `version` key and an
`items` key holding a list; and every missing/unreadable/blank/
unparsable/non-dict state collapses to the empty registry. -/
theorem c10_registry_load_total (f : RegFile) :
    (∃ fields, loadRegistry f = .jobj fields ∧
      (lookupJ (strL "version") fields).isSome = true ∧
      ∃ l, lookupJ (strL "items") fields = some (.jarr l)) ∧
    (loadRegistry .missing = emptyRegistry ∧ loadRegistry .readRaise = emptyRegistry ∧
      loadRegistry .emptyText = emptyRegistry ∧ loadRegistry .parseRaise = emptyRegistry) ∧
    (∀ j : Jv, (∀ fields, j ≠ .jobj fields) → loadRegistry (.parsed j) = emptyRegistry) := by
  refine ⟨?_, ⟨rfl, rfl, rfl, rfl⟩, ?_⟩
  · cases f with
    | missing => exact ⟨_, rfl, rfl, [], rfl⟩
    | readRaise => exact ⟨_, rfl, rfl, [], rfl⟩
    | emptyText => exact ⟨_, rfl, rfl, [], rfl⟩
    | parseRaise => exact ⟨_, rfl, rfl, [], rfl⟩
    | parsed j =>
      cases j with
      | jobj fields =>
        have hver1 : (lookupJ (strL "version")
            (if (lookupJ (strL "version") fields).isSome then fields
              else fields ++ [(strL "version", .jnum 1)])).isSome = true := by
          by_cases hv : (lookupJ (strL "version") fields).isSome = true
          · simp [hv]
          · have hv' : lookupJ (strL "version") fields = none := by
              revert hv; cases lookupJ (strL "version") fields <;> simp
            rw [if_neg (by simp [hv'])]
            rw [lookupJ_append_none _ _ _ hv']
            decide
        refine ⟨_, rfl, ?_, ?_⟩
        · cases hi : lookupJ (strL "items")
              (if (lookupJ (strL "version") fields).isSome then fields
                else fields ++ [(strL "version", .jnum 1)]) with
          | none =>
            simp only [hi]
            rw [lookupJ_setJ_ne _ _ _ (by decide)]
            exact hver1
          | some jv =>
            cases jv with
            | jarr l => simp only [hi]; exact hver1
            | null => simp only [hi]; rw [lookupJ_setJ_ne _ _ _ (by decide)]; exact hver1
            | jbool b => simp only [hi]; rw [lookupJ_setJ_ne _ _ _ (by decide)]; exact hver1
            | jnum n => simp only [hi]; rw [lookupJ_setJ_ne _ _ _ (by decide)]; exact hver1
            | jstr s => simp only [hi]; rw [lookupJ_setJ_ne _ _ _ (by decide)]; exact hver1
            | jobj g => simp only [hi]; rw [lookupJ_setJ_ne _ _ _ (by decide)]; exact hver1
        · cases hi : lookupJ (strL "items")
              (if (lookupJ (strL "version") fields).isSome then fields
                else fields ++ [(strL "version", .jnum 1)]) with
          | none => exact ⟨[], by simp only [hi]; exact lookupJ_setJ_self _ _ _⟩
          | some jv =>
            cases jv with
            | jarr l => exact ⟨l, hi⟩
            | null => exact ⟨[], by simp only [hi]; exact lookupJ_setJ_self _ _ _⟩
            | jbool b => exact ⟨[], by simp only [hi]; exact lookupJ_setJ_self _ _ _⟩
            | jnum n => exact ⟨[], by simp only [hi]; exact lookupJ_setJ_self _ _ _⟩
            | jstr s => exact ⟨[], by simp only [hi]; exact lookupJ_setJ_self _ _ _⟩
            | jobj g => exact ⟨[], by simp only [hi]; exact lookupJ_setJ_self _ _ _⟩
      | null => exact ⟨_, rfl, rfl, [], rfl⟩
      | jbool b => exact ⟨_, rfl, rfl, [], rfl⟩
      | jnum n => exact ⟨_, rfl, rfl, [], rfl⟩
      | jstr s => exact ⟨_, rfl, rfl, [], rfl⟩
      | jarr l => exact ⟨_, rfl, rfl, [], rfl⟩
  · intro j hj
    cases j with
    | jobj fields => exact absurd rfl (hj fields)
    | null => rfl
    | jbool b => rfl
    | jnum n => rfl
    | jstr s => rfl
    | jarr l => rfl

/-- Witness for C10 at a non-dict payload. -/
theorem c10_registry_load_total_witness :
    loadRegistry (.parsed (.jnum 5)) = emptyRegistry :=
  (c10_registry_load_total (.parsed (.jnum 5))).2.2 (.jnum 5) (fun fields h => by cases h)


/-! ## DiffReporter / PruneApplier: `backend/pruner.py`

`DiffReporter.make_report` extracts folder slugs from the master
document and the cached aggregate page (`_extract_slugs_with_bs4`
collects `data-folder` attributes, folder segments of `a[href]`/
`img[src]` URLs, and `h2` texts), takes the ground truth from
`list_fs_slugs`, and reports the sorted deduplicated set of slugs that
appear in either cache but not on disk (`folders_missing_in_fs`) plus
the aggregate-only orphans.  `PruneApplier.apply` removes every
`div.card` whose title or `data-card`/`data-folder` is in that missing
set and re-renders the aggregate page from the pruned master document.

A card is modelled by its title together with `bodyRefs`, the folder
slugs that the URL pattern of the extractor matches inside its body
markup; the report's sorted-set construction reuses `sortStrs` and
`dedupStr`.  (Hard-delete intents, child-page rebuilding and orphan
thumbnails are outside this model; the settled claim concerns the
folders-missing set.) -/

/-- One master-document card as the differ sees it. -/
structure PrCard where
  title : Str
  bodyRefs : List Str
deriving DecidableEq

/-- Differ state: master-document cards, slugs extracted from the
cached aggregate page, and the on-disk folder set. -/
@[ext]
structure PruneState where
  cards : List PrCard
  indexSlugs : List Str
  fs : List Str
deriving DecidableEq

/-- All slugs the extractor collects from the master document:
every card's `h2` title plus the folder slugs in its body URLs. -/
def extractSlugs (cards : List PrCard) : List Str :=
  cards.foldr (fun c acc => c.title :: c.bodyRefs ++ acc) []

/-- `folders_missing_in_fs`: sorted set of cached slugs absent from the
ground truth. -/
def diffMissing (st : PruneState) : List Str :=
  sortStrs (dedupStr
    ((extractSlugs st.cards ++ st.indexSlugs).filter (fun s => !st.fs.contains s)))

/-- `orphans_in_master_index_only`: aggregate-page slugs absent from
the master document. -/
def indexOnlyOrphans (st : PruneState) : List Str :=
  sortStrs (dedupStr
    (st.indexSlugs.filter (fun s => !(extractSlugs st.cards).contains s)))

/-- `PruneApplier.apply`: drop the cards whose title is in the missing
set, then re-render the aggregate page from the pruned document (so its
extracted slugs become those of the surviving cards). -/
def applyPrune (st : PruneState) : PruneState :=
  { cards := st.cards.filter (fun c => !(diffMissing st).contains c.title),
    indexSlugs := extractSlugs (st.cards.filter (fun c => !(diffMissing st).contains c.title)),
    fs := st.fs }

theorem mem_extractSlugs (s : Str) :
    ∀ cards : List PrCard,
      (s ∈ extractSlugs cards ↔ ∃ c ∈ cards, s = c.title ∨ s ∈ c.bodyRefs)
  | [] => by simp [extractSlugs]
  | c :: cards => by
    simp only [extractSlugs, List.foldr_cons, List.mem_cons, List.mem_append]
    rw [show (List.foldr (fun c acc => c.title :: c.bodyRefs ++ acc) [] cards)
        = extractSlugs cards from rfl, mem_extractSlugs s cards]
    aesop

/-- **C9 (amended)** — After one `prune-apply`, provided no surviving
card's body still references a folder absent from disk, the second
diff's folders-missing set and aggregate-only-orphan set are empty and
a second apply changes nothing.  (Without that proviso the report is
not empty again — see the counterexample: a deleted folder that is
still referenced from a surviving card's body is re-reported, because
the extractor collects body URLs and apply only removes cards titled
with a missing slug.) -/
theorem c9_prune_second_diff (st : PruneState)
    (h : ∀ c ∈ (applyPrune st).cards, ∀ r ∈ c.bodyRefs, r ∈ st.fs) :
    diffMissing (applyPrune st) = [] ∧
    indexOnlyOrphans (applyPrune st) = [] ∧
    applyPrune (applyPrune st) = applyPrune st := by
  have hkept : ∀ s ∈ extractSlugs (applyPrune st).cards, s ∈ st.fs := by
    intro s hs
    rw [mem_extractSlugs] at hs
    obtain ⟨c, hc, hcase⟩ := hs
    rcases hcase with rfl | href
    · -- a surviving title: if it were missing from fs it would be in the missing set
      have hc' := List.mem_filter.mp hc
      by_contra hfs
      have hmiss : c.title ∈ diffMissing st := by
        unfold diffMissing
        rw [mem_sortStrs, mem_dedupStr, List.mem_filter]
        refine ⟨List.mem_append.mpr (Or.inl ?_), ?_⟩
        · rw [mem_extractSlugs]
          exact ⟨c, hc'.1, Or.inl rfl⟩
        · have : ¬ (st.fs.contains c.title = true) := fun hcon =>
            hfs (List.elem_iff.mp hcon)
          revert this
          cases st.fs.contains c.title <;> simp
      have := hc'.2
      rw [(by simp : (!(diffMissing st).contains c.title) = true ↔
        ¬ ((diffMissing st).contains c.title = true))] at this
      exact this (List.elem_iff.mpr hmiss)
    · exact h c hc _ href
  have hfs2 : (applyPrune st).fs = st.fs := rfl
  have hdm : diffMissing (applyPrune st) = [] := by
    unfold diffMissing
    have hfilter : ((extractSlugs (applyPrune st).cards ++ (applyPrune st).indexSlugs).filter
        (fun s => !(applyPrune st).fs.contains s)) = [] := by
      rw [List.filter_eq_nil_iff]
      intro s hs
      have hsfs : s ∈ st.fs := by
        rcases List.mem_append.mp hs with hs | hs
        · exact hkept s hs
        · exact hkept s hs
      simp [hfs2, hsfs]
    rw [hfilter]
    rfl
  refine ⟨hdm, ?_, ?_⟩
  · unfold indexOnlyOrphans
    have hfilter : ((applyPrune st).indexSlugs.filter
        (fun s => !(extractSlugs (applyPrune st).cards).contains s)) = [] := by
      rw [List.filter_eq_nil_iff]
      intro s hs
      have hmem : s ∈ extractSlugs (applyPrune st).cards := hs
      simp [hmem]
    rw [hfilter]
    rfl
  · have h1 : (applyPrune (applyPrune st)).cards = (applyPrune st).cards := by
      show (applyPrune st).cards.filter
        (fun c => !(diffMissing (applyPrune st)).contains c.title) = (applyPrune st).cards
      rw [hdm]
      exact List.filter_eq_self.mpr (fun c _ => rfl)
    have h2 : (applyPrune (applyPrune st)).indexSlugs = (applyPrune st).indexSlugs := by
      show extractSlugs ((applyPrune st).cards.filter
        (fun c => !(diffMissing (applyPrune st)).contains c.title)) = (applyPrune st).indexSlugs
      rw [hdm]
      have hflt : List.filter (fun (c : PrCard) => !([] : List Str).contains c.title)
          (applyPrune st).cards = (applyPrune st).cards :=
        List.filter_eq_self.mpr (fun c _ => rfl)
      rw [hflt]
      rfl
    exact PruneState.ext h1 h2 rfl

/-- Witness for C9 at a state whose dead card (`dead`) has no incoming
body references: the first diff reports it, apply removes it, the
second diff is empty and a second apply is a no-op. -/
theorem c9_prune_second_diff_witness :
    diffMissing ⟨[⟨strL "a", []⟩, ⟨strL "dead", []⟩], [strL "dead"], [strL "a"]⟩
      = [strL "dead"] ∧
    diffMissing (applyPrune ⟨[⟨strL "a", []⟩, ⟨strL "dead", []⟩], [strL "dead"],
      [strL "a"]⟩) = [] ∧
    applyPrune (applyPrune ⟨[⟨strL "a", []⟩, ⟨strL "dead", []⟩], [strL "dead"],
      [strL "a"]⟩) = applyPrune ⟨[⟨strL "a", []⟩, ⟨strL "dead", []⟩], [strL "dead"],
      [strL "a"]⟩ :=
  ⟨by decide,
   (c9_prune_second_diff ⟨[⟨strL "a", []⟩, ⟨strL "dead", []⟩], [strL "dead"],
      [strL "a"]⟩ (by decide)).1,
   (c9_prune_second_diff ⟨[⟨strL "a", []⟩, ⟨strL "dead", []⟩], [strL "dead"],
      [strL "a"]⟩ (by decide)).2.2⟩

/-- **C9 counterexample** — Master document with one card `a` whose
body references `resource/g/pic.png`, folder `g` deleted from disk:
the first diff reports `g`, but apply removes nothing (no card is
titled `g`), and the diff after prune-apply still reports `g` — its
count is not zero. -/
theorem c9_prune_second_diff_counterexample :
    diffMissing ⟨[⟨strL "a", [strL "g"]⟩], [], [strL "a"]⟩ = [strL "g"] ∧
    applyPrune ⟨[⟨strL "a", [strL "g"]⟩], [], [strL "a"]⟩ =
      ⟨[⟨strL "a", [strL "g"]⟩], [strL "a", strL "g"], [strL "a"]⟩ ∧
    diffMissing (applyPrune ⟨[⟨strL "a", [strL "g"]⟩], [], [strL "a"]⟩) = [strL "g"] := by
  refine ⟨by decide, by decide, by decide⟩


/-! ## Merge step: `MasterApi._ensure_cards_for_new_folders`

The merge step parses the master document, records for every card its
name (`data-card`, falling back to the `h2` text), indexes cards by
name (`name_to_cards`) and by non-empty `data-card-id` (`id_to_card`,
last occurrence winning), then walks the on-disk folders sorted by
name, skipping dot-names and `thumbs`.  A folder whose identifier file
holds an id already indexed takes the rename path: that card's
`data-card`/`h2`/`data-card-id` are set to the folder's name and id in
place, the name is registered, and every *other* card registered under
the new name with a different id is decomposed.  Otherwise a folder
whose name is already known is skipped, and a genuinely new folder gets
a fresh default card appended (without an id).

Cards are keyed by their position in the parsed document so that
element identity (BeautifulSoup object identity) is preserved across
in-place mutation; `body` stands opaquely for the card content the
merge never touches. -/

/-- One `div.card` of the master document: resolved name, stripped
`data-card-id` (`none` when absent or empty), opaque remaining
content. -/
structure MCard where
  name : Str
  cid : Option Str
  body : Nat
deriving DecidableEq

/-- One folder under `resource/`: its name and the stripped contents of
`.suksukidx.id` (`none` when missing or empty). -/
structure FsFolder where
  name : Str
  cid : Option Str
deriving DecidableEq

/-- A key-tagged card (key = position in the parsed document). -/
abbrev KCard := Nat × MCard

def enumFrom : Nat → List MCard → List KCard
  | _, [] => []
  | i, c :: cs => (i, c) :: enumFrom (i + 1) cs

/-- `name_to_cards[nm].append(k)`. -/
def idxAdd : List (Str × List Nat) → Str → Nat → List (Str × List Nat)
  | [], nm, k => [(nm, [k])]
  | e :: rest, nm, k =>
    if e.1 == nm then (nm, e.2 ++ [k]) :: rest else e :: idxAdd rest nm k

/-- `name_to_cards.get(nm, [])`. -/
def idxGet : List (Str × List Nat) → Str → List Nat
  | [], _ => []
  | e :: rest, nm => if e.1 == nm then e.2 else idxGet rest nm

/-- `name_to_cards[nm] = ks`. -/
def idxSet : List (Str × List Nat) → Str → List Nat → List (Str × List Nat)
  | [], nm, ks => [(nm, ks)]
  | e :: rest, nm, ks =>
    if e.1 == nm then (nm, ks) :: rest else e :: idxSet rest nm ks

/-- The initial `name_to_cards`: every card with a non-empty name, in
document order. -/
def initNameIdx (ks : List KCard) : List (Str × List Nat) :=
  ks.foldl (fun idx kc => if kc.2.name.isEmpty then idx else idxAdd idx kc.2.name kc.1) []

/-- The initial `existing_names`. -/
def initNames (ks : List KCard) : List Str :=
  ks.foldl (fun ns kc =>
    if kc.2.name.isEmpty then ns
    else if ns.contains kc.2.name then ns else ns ++ [kc.2.name]) []

/-- `id_to_card[x]`, last occurrence winning. -/
def lastIdOwner (ks : List KCard) (x : Str) : Option Nat :=
  ks.foldl (fun acc kc => if kc.2.cid == some x then some kc.1 else acc) none

/-- The evolving loop state: live cards (in document order),
`existing_names`, `name_to_cards`, the next fresh key, and the count of
appended cards. -/
structure MergeState where
  cards : List KCard
  names : List Str
  idx : List (Str × List Nat)
  fresh : Nat
  added : Nat
deriving DecidableEq

/-- Steps 2-3/2-4 of the loop: skip a known name, append a default card
for a genuinely new folder. -/
def nameBranch (st : MergeState) (f : FsFolder) : MergeState :=
  if st.names.contains f.name then st
  else
    { cards := st.cards ++ [(st.fresh, { name := f.name, cid := none, body := 0 })],
      names := st.names ++ [f.name],
      idx := idxAdd st.idx f.name st.fresh,
      fresh := st.fresh + 1,
      added := st.added + 1 }

/-- One folder of the loop body.  `idIdx0` is the `id_to_card` index
built once from the initial document. -/
def mergeStep (idIdx0 : Str → Option Nat) (st : MergeState) (f : FsFolder) : MergeState :=
  if (strL ".").isPrefixOf f.name || lowerS f.name == strL "thumbs" then st
  else
    match f.cid with
    | some x =>
      match idIdx0 x with
      | some key =>
        let cards1 := st.cards.map (fun kc =>
          if kc.1 == key then (kc.1, { kc.2 with name := f.name, cid := some x }) else kc)
        let names1 := if st.names.contains f.name then st.names else st.names ++ [f.name]
        let idx1 := idxAdd st.idx f.name key
        let cards2 := cards1.filter (fun kc =>
          !((!(kc.1 == key)) && (idxGet idx1 f.name).contains kc.1 &&
            (!(kc.2.cid == some x))))
        { cards := cards2, names := names1, idx := idxSet idx1 f.name [key],
          fresh := st.fresh, added := st.added }
      | none => nameBranch st f
    | none => nameBranch st f

def insertFolder (f : FsFolder) : List FsFolder → List FsFolder
  | [] => [f]
  | g :: gs => if lexLt f.name g.name then f :: g :: gs else g :: insertFolder f gs

/-- `sorted(resource_dir.iterdir(), key=lambda p: p.name)`. -/
def sortFolders : List FsFolder → List FsFolder
  | [] => []
  | f :: fs => insertFolder f (sortFolders fs)

/-- `MasterApi._ensure_cards_for_new_folders`: final card list and the
number of cards added. -/
def ensureCardsForNewFolders (cards : List MCard) (folders : List FsFolder) :
    List MCard × Nat :=
  let ks := enumFrom 0 cards
  let st1 := (sortFolders folders).foldl
    (mergeStep (lastIdOwner ks))
    { cards := ks, names := initNames ks, idx := initNameIdx ks,
      fresh := cards.length, added := 0 }
  (st1.cards.map (fun kc => kc.2), st1.added)


/-! ### Enumeration and index lemmas for the merge step -/

theorem enumFrom_append (i : Nat) :
    ∀ l1 l2 : List MCard, enumFrom i (l1 ++ l2) = enumFrom i l1 ++ enumFrom (i + l1.length) l2
  | [], l2 => by simp [enumFrom]
  | d :: l1, l2 => by
    have ih := enumFrom_append (i + 1) l1 l2
    have harith : i + 1 + l1.length = i + (d :: l1).length := by
      simp only [List.length_cons]
      omega
    show (i, d) :: enumFrom (i + 1) (l1 ++ l2) =
      ((i, d) :: enumFrom (i + 1) l1) ++ enumFrom (i + (d :: l1).length) l2
    rw [ih, List.cons_append, harith]

theorem mem_enumFrom : ∀ (i : Nat) (l : List MCard) (k : Nat) (d : MCard),
    (k, d) ∈ enumFrom i l → i ≤ k ∧ k < i + l.length ∧ d ∈ l
  | i, [], k, d, h => by simp [enumFrom] at h
  | i, c :: l, k, d, h => by
    simp only [enumFrom, List.mem_cons, Prod.mk.injEq] at h
    rcases h with ⟨h1, h2⟩ | h
    · subst h1
      refine ⟨le_refl k, ?_, by simp [h2]⟩
      simp only [List.length_cons]
      omega
    · obtain ⟨h1, h2, h3⟩ := mem_enumFrom (i + 1) l k d h
      refine ⟨by omega, ?_, by simp [h3]⟩
      simp only [List.length_cons]
      omega

theorem enumFrom_inj : ∀ (i : Nat) (l : List MCard) (k : Nat) (d d' : MCard),
    (k, d) ∈ enumFrom i l → (k, d') ∈ enumFrom i l → d = d'
  | i, [], k, d, d', h, _ => by simp [enumFrom] at h
  | i, c :: l, k, d, d', h, h' => by
    simp only [enumFrom, List.mem_cons, Prod.mk.injEq] at h h'
    rcases h with ⟨h1, h2⟩ | h
    · rcases h' with ⟨h1', h2'⟩ | h'
      · rw [h2, h2']
      · subst h1
        have := (mem_enumFrom (k + 1) l k d' h').1
        omega
    · rcases h' with ⟨h1', h2'⟩ | h'
      · subst h1'
        have := (mem_enumFrom (k + 1) l k d h).1
        omega
      · exact enumFrom_inj (i + 1) l k d d' h h'

theorem map_self {α : Type} (f : α → α) :
    ∀ l : List α, (∀ a ∈ l, f a = a) → l.map f = l
  | [], _ => rfl
  | a :: l, h => by
    rw [List.map_cons, h a (by simp), map_self f l (fun b hb => h b (by simp [hb]))]

/-- Mapping the card projection over a filtered enumeration equals
filtering the underlying list, when the key-level predicate agrees with
a card-level one on every enumerated entry. -/
theorem seg_filter (P : KCard → Bool) (Q : MCard → Bool) :
    ∀ (i : Nat) (l : List MCard),
      (∀ kc ∈ enumFrom i l, P kc = Q kc.2) →
      ((enumFrom i l).filter P).map (fun kc => kc.2) = l.filter Q
  | i, [], _ => rfl
  | i, d :: l, h => by
    have hd := h (i, d) (by simp [enumFrom])
    have hrest := seg_filter P Q (i + 1) l (fun kc hkc => h kc (by simp [enumFrom, hkc]))
    by_cases hq : Q d = true
    · simp only [enumFrom, List.filter_cons, hd, hq, if_true, List.map_cons, hrest]
    · have hq' : Q d = false := by revert hq; cases Q d <;> simp
      simp only [enumFrom, List.filter_cons, hd, hq', Bool.false_eq_true, if_false, hrest]

theorem idxGet_idxAdd_self (nm : Str) (k : Nat) :
    ∀ idx : List (Str × List Nat), idxGet (idxAdd idx nm k) nm = idxGet idx nm ++ [k]
  | [] => by simp [idxAdd, idxGet]
  | e :: rest => by
    by_cases he : (e.1 == nm) = true
    · simp [idxAdd, he, idxGet]
    · have he' : (e.1 == nm) = false := by revert he; cases e.1 == nm <;> simp
      simp [idxAdd, he', idxGet, idxGet_idxAdd_self nm k rest]

theorem idxGet_idxAdd_ne (nm' nm : Str) (k : Nat) (h : (nm == nm') = false) :
    ∀ idx : List (Str × List Nat), idxGet (idxAdd idx nm k) nm' = idxGet idx nm'
  | [] => by simp [idxAdd, idxGet, h]
  | e :: rest => by
    by_cases he : (e.1 == nm) = true
    · have hh : (e.1 == nm') = false := by
        have : e.1 = nm := by simpa using he
        rw [this]; exact h
      simp [idxAdd, he, idxGet, hh, h]
    · have he' : (e.1 == nm) = false := by revert he; cases e.1 == nm <;> simp
      simp [idxAdd, he', idxGet, idxGet_idxAdd_ne nm' nm k h rest]

/-- The keys registered in `name_to_cards[nm]` are the keys of the
(non-empty-named) cards named `nm`, in document order. -/
def bKeys (ks : List KCard) (nm : Str) : List Nat :=
  (ks.filter (fun kc => !kc.2.name.isEmpty && kc.2.name == nm)).map (fun kc => kc.1)

theorem initIdx_get_aux (nm : Str) :
    ∀ (ks : List KCard) (idx : List (Str × List Nat)),
      idxGet (ks.foldl (fun idx kc =>
        if kc.2.name.isEmpty then idx else idxAdd idx kc.2.name kc.1) idx) nm =
      idxGet idx nm ++ bKeys ks nm
  | [], idx => by simp [bKeys]
  | kc :: ks, idx => by
    by_cases hemp : kc.2.name.isEmpty = true
    · have hne : (kc.2.name == nm) = false ∨ True := Or.inr trivial
      simp only [List.foldl_cons, hemp, if_true]
      rw [initIdx_get_aux nm ks idx]
      have : bKeys (kc :: ks) nm = bKeys ks nm := by
        simp [bKeys, List.filter_cons, hemp]
      rw [this]
    · have hemp' : kc.2.name.isEmpty = false := by
        revert hemp; cases kc.2.name.isEmpty <;> simp
      simp only [List.foldl_cons, hemp', Bool.false_eq_true, if_false]
      rw [initIdx_get_aux nm ks _]
      by_cases hnm : (kc.2.name == nm) = true
      · have heq : kc.2.name = nm := by simpa using hnm
        rw [heq, idxGet_idxAdd_self]
        have : bKeys (kc :: ks) nm = kc.1 :: bKeys ks nm := by
          simp [bKeys, List.filter_cons, hemp', hnm]
        rw [this]
        simp
      · have hnm' : (kc.2.name == nm) = false := by revert hnm; cases kc.2.name == nm <;> simp
        rw [idxGet_idxAdd_ne nm _ _ hnm']
        have : bKeys (kc :: ks) nm = bKeys ks nm := by
          simp [bKeys, List.filter_cons, hemp', hnm']
        rw [this]

theorem initIdx_get (nm : Str) (ks : List KCard) :
    idxGet (initNameIdx ks) nm = bKeys ks nm := by
  unfold initNameIdx
  rw [initIdx_get_aux nm ks []]
  rfl

theorem foldl_lastId_idle (x : Str) :
    ∀ (l : List KCard) (acc : Option Nat),
      (∀ kc ∈ l, (kc.2.cid == some x) = false) →
      l.foldl (fun acc kc => if kc.2.cid == some x then some kc.1 else acc) acc = acc
  | [], _, _ => rfl
  | kc :: l, acc, h => by
    have h0 := h kc (by simp)
    simp only [List.foldl_cons, h0, Bool.false_eq_true, if_false]
    exact foldl_lastId_idle x l acc (fun kc' hkc' => h kc' (by simp [hkc']))


theorem mem_bKeys {k : Nat} {i : Nat} {l : List MCard} {nm : Str} :
    k ∈ bKeys (enumFrom i l) nm ↔
      ∃ d, (k, d) ∈ enumFrom i l ∧ (!d.name.isEmpty && (d.name == nm)) = true := by
  constructor
  · intro h
    simp only [bKeys, List.mem_map] at h
    obtain ⟨kc, hkc, hk⟩ := h
    rw [List.mem_filter] at hkc
    refine ⟨kc.2, ?_, hkc.2⟩
    rw [← hk]
    exact hkc.1
  · intro h
    obtain ⟨d, hd, hp⟩ := h
    simp only [bKeys, List.mem_map]
    exact ⟨(k, d), List.mem_filter.mpr ⟨hd, hp⟩, rfl⟩

theorem contains_of_mem {l : List Nat} {k : Nat} (h : k ∈ l) : l.contains k = true := by
  simpa using h

theorem contains_of_not_mem {l : List Nat} {k : Nat} (h : k ∉ l) : l.contains k = false := by
  cases hc : l.contains k
  · rfl
  · exact absurd (by simpa using hc) h

/-! The rename path of `mergeStep`, written with named card-rewriting
and card-keeping functions so that it can be reasoned about in
isolation. -/

/-- In-place retitling of the card at position `key`. -/
def rnFun (nm x : Str) (key : Nat) : KCard → KCard := fun kc =>
  if kc.1 == key then (kc.1, { kc.2 with name := nm, cid := some x }) else kc

/-- Survival predicate applied after a rename: a card is decomposed iff
it is not the renamed card, is registered under the new name, and
carries a different id. -/
def keepFun (D : List Nat) (x : Str) (key : Nat) : KCard → Bool := fun kc =>
  !((!(kc.1 == key)) && D.contains kc.1 && (!(kc.2.cid == some x)))

theorem mergeStep_rename (idIdx0 : Str → Option Nat) (st : MergeState) (nm x : Str) (key : Nat)
    (hskip : ((strL ".").isPrefixOf nm || lowerS nm == strL "thumbs") = false)
    (hkey : idIdx0 x = some key) :
    mergeStep idIdx0 st ⟨nm, some x⟩ =
      { cards := (st.cards.map (rnFun nm x key)).filter
          (keepFun (idxGet (idxAdd st.idx nm key) nm) x key),
        names := if st.names.contains nm then st.names else st.names ++ [nm],
        idx := idxSet (idxAdd st.idx nm key) nm [key],
        fresh := st.fresh, added := st.added } := by
  unfold mergeStep
  simp only [hkey, hskip, Bool.false_eq_true, if_false]
  rfl

theorem rename_cards_eq (pre post : List MCard) (c : MCard) (B X : Str)
    (hne : (c.name == B) = false)
    (hpre : ∀ d ∈ pre, (d.cid == some X) = false)
    (hpost : ∀ d ∈ post, (d.cid == some X) = false)
    (hBne : B.isEmpty = false) :
    (((enumFrom 0 (pre ++ c :: post)).map (rnFun B X pre.length)).filter
      (keepFun (idxGet (idxAdd (initNameIdx (enumFrom 0 (pre ++ c :: post))) B pre.length) B)
        X pre.length)).map (fun kc => kc.2)
    = pre.filter (fun d => !(d.name == B)) ++
      { c with name := B, cid := some X } :: post.filter (fun d => !(d.name == B)) := by
  set D := idxGet (idxAdd (initNameIdx (enumFrom 0 (pre ++ c :: post))) B pre.length) B with hD
  have hks : enumFrom 0 (pre ++ c :: post)
      = enumFrom 0 pre ++ (pre.length, c) :: enumFrom (pre.length + 1) post := by
    rw [enumFrom_append 0 pre (c :: post), Nat.zero_add]
    rfl
  have hbmid : bKeys (enumFrom 0 (pre ++ c :: post)) B
      = bKeys (enumFrom 0 pre) B ++ bKeys (enumFrom (pre.length + 1) post) B := by
    rw [hks]
    simp [bKeys, List.filter_append, List.filter_cons, hne]
  have hdup : D
      = (bKeys (enumFrom 0 pre) B ++ bKeys (enumFrom (pre.length + 1) post) B)
        ++ [pre.length] := by
    rw [hD, idxGet_idxAdd_self, initIdx_get, hbmid]
  have hcpre : ∀ (k : Nat) (d : MCard), (k, d) ∈ enumFrom 0 pre →
      (((bKeys (enumFrom 0 pre) B ++ bKeys (enumFrom (pre.length + 1) post) B)
        ++ [pre.length]).contains k) = (d.name == B) := by
    intro k d hkd
    obtain ⟨-, hklt, -⟩ := mem_enumFrom 0 pre k d hkd
    by_cases hb : (d.name == B) = true
    · rw [hb]
      apply contains_of_mem
      rw [List.mem_append]
      left
      rw [List.mem_append]
      left
      rw [mem_bKeys]
      refine ⟨d, hkd, ?_⟩
      have hdB : d.name = B := by simpa using hb
      rw [hdB, hBne]
      simp
    · have hb' : (d.name == B) = false := by revert hb; cases d.name == B <;> simp
      rw [hb']
      apply contains_of_not_mem
      intro hmem
      rw [List.mem_append] at hmem
      rcases hmem with hmem | hmem
      · rw [List.mem_append] at hmem
        rcases hmem with h1 | h2
        · rw [mem_bKeys] at h1
          obtain ⟨d2, hd2, hp2⟩ := h1
          have hdd : d2 = d := enumFrom_inj 0 pre k d2 d hd2 hkd
          subst hdd
          rw [Bool.and_eq_true] at hp2
          have hx : (d2.name == B) = true := hp2.2
          rw [hb'] at hx
          exact absurd hx (by simp)
        · rw [mem_bKeys] at h2
          obtain ⟨d2, hd2, -⟩ := h2
          have := (mem_enumFrom (pre.length + 1) post k d2 hd2).1
          omega
      · rw [List.mem_singleton] at hmem
        omega
  have hcpost : ∀ (k : Nat) (d : MCard), (k, d) ∈ enumFrom (pre.length + 1) post →
      (((bKeys (enumFrom 0 pre) B ++ bKeys (enumFrom (pre.length + 1) post) B)
        ++ [pre.length]).contains k) = (d.name == B) := by
    intro k d hkd
    obtain ⟨hkge, -, -⟩ := mem_enumFrom (pre.length + 1) post k d hkd
    by_cases hb : (d.name == B) = true
    · rw [hb]
      apply contains_of_mem
      rw [List.mem_append]
      left
      rw [List.mem_append]
      right
      rw [mem_bKeys]
      refine ⟨d, hkd, ?_⟩
      have hdB : d.name = B := by simpa using hb
      rw [hdB, hBne]
      simp
    · have hb' : (d.name == B) = false := by revert hb; cases d.name == B <;> simp
      rw [hb']
      apply contains_of_not_mem
      intro hmem
      rw [List.mem_append] at hmem
      rcases hmem with hmem | hmem
      · rw [List.mem_append] at hmem
        rcases hmem with h1 | h2
        · rw [mem_bKeys] at h1
          obtain ⟨d2, hd2, -⟩ := h1
          have := (mem_enumFrom 0 pre k d2 hd2).2.1
          omega
        · rw [mem_bKeys] at h2
          obtain ⟨d2, hd2, hp2⟩ := h2
          have hdd : d2 = d := enumFrom_inj (pre.length + 1) post k d2 d hd2 hkd
          subst hdd
          rw [Bool.and_eq_true] at hp2
          have hx : (d2.name == B) = true := hp2.2
          rw [hb'] at hx
          exact absurd hx (by simp)
      · rw [List.mem_singleton] at hmem
        omega
  have hrnpre : (enumFrom 0 pre).map (rnFun B X pre.length) = enumFrom 0 pre := by
    apply map_self
    rintro ⟨k, d⟩ hkd
    obtain ⟨-, hklt, -⟩ := mem_enumFrom 0 pre k d hkd
    have hkp : (k == pre.length) = false := by
      cases hh : (k == pre.length)
      · rfl
      · exact absurd (by simpa using hh) (by omega)
    simp [rnFun, hkp]
  have hrnpost : (enumFrom (pre.length + 1) post).map (rnFun B X pre.length)
      = enumFrom (pre.length + 1) post := by
    apply map_self
    rintro ⟨k, d⟩ hkd
    obtain ⟨hkge, -, -⟩ := mem_enumFrom (pre.length + 1) post k d hkd
    have hkp : (k == pre.length) = false := by
      cases hh : (k == pre.length)
      · rfl
      · exact absurd (by simpa using hh) (by omega)
    simp [rnFun, hkp]
  have hrnmid : rnFun B X pre.length (pre.length, c)
      = (pre.length, { c with name := B, cid := some X }) := by
    simp [rnFun]
  have hkpre : ∀ kc ∈ enumFrom 0 pre,
      keepFun D X pre.length kc = (!(kc.2.name == B)) := by
    rintro ⟨k, d⟩ hkd
    obtain ⟨-, hklt, hdm⟩ := mem_enumFrom 0 pre k d hkd
    have hkp : (k == pre.length) = false := by
      cases hh : (k == pre.length)
      · rfl
      · exact absurd (by simpa using hh) (by omega)
    have hdc := hpre d hdm
    simp only [keepFun, hdup]
    rw [hcpre k d hkd]
    simp [hkp, hdc]
  have hkpost : ∀ kc ∈ enumFrom (pre.length + 1) post,
      keepFun D X pre.length kc = (!(kc.2.name == B)) := by
    rintro ⟨k, d⟩ hkd
    obtain ⟨hkge, -, hdm⟩ := mem_enumFrom (pre.length + 1) post k d hkd
    have hkp : (k == pre.length) = false := by
      cases hh : (k == pre.length)
      · rfl
      · exact absurd (by simpa using hh) (by omega)
    have hdc := hpost d hdm
    simp only [keepFun, hdup]
    rw [hcpost k d hkd]
    simp [hkp, hdc]
  have hsegpre := seg_filter (keepFun D X pre.length) (fun d => !(d.name == B)) 0 pre hkpre
  have hsegpost :=
    seg_filter (keepFun D X pre.length) (fun d => !(d.name == B)) (pre.length + 1) post hkpost
  have hfmid : ((pre.length, { c with name := B, cid := some X }) ::
        enumFrom (pre.length + 1) post).filter (keepFun D X pre.length)
      = (pre.length, { c with name := B, cid := some X }) ::
        (enumFrom (pre.length + 1) post).filter (keepFun D X pre.length) := by
    have hkm : keepFun D X pre.length (pre.length, { c with name := B, cid := some X })
        = true := by
      simp [keepFun]
    simp [List.filter_cons, hkm]
  rw [hks, List.map_append, List.map_cons, hrnpre, hrnmid, hrnpost, List.filter_append,
    hfmid, List.map_append, List.map_cons, hsegpre, hsegpost]

theorem filter_filter_contra (B X : Str) (l : List MCard) :
    ((l.filter (fun d => !(d.name == B))).filter
      (fun d => d.name == B && d.cid == some X)) = [] := by
  induction l with
  | nil => rfl
  | cons d l ih =>
    by_cases hb : (d.name == B) = true
    · simp [List.filter_cons, hb, ih]
    · have hb' : (d.name == B) = false := by revert hb; cases d.name == B <;> simp
      simp [List.filter_cons, hb', ih]

theorem filter_keep_cons {R : MCard → Bool} {d : MCard} {l : List MCard} (h : R d = true) :
    (d :: l).filter R = d :: l.filter R := by
  simp [List.filter_cons, h]


theorem foldl_lastId_start (x : Str) (l : List KCard) (k : Nat) (acc : Option Nat) (d : MCard)
    (hd : (d.cid == some x) = true) :
    ((k, d) :: l).foldl (fun acc kc => if kc.2.cid == some x then some kc.1 else acc) acc
      = l.foldl (fun acc kc => if kc.2.cid == some x then some kc.1 else acc) (some k) := by
  simp only [List.foldl_cons]
  congr 1
  simp [hd]

/-- **C6** — Identity persistence across renames.  For a master
document `pre ++ c :: post` whose card `c` is the unique holder of id
`X` and is titled differently from `B`, running the merge step against
a disk listing holding exactly the folder `B` with identifier file
contents `X` (a rename of `c`'s folder) retitles `c` to `B` in place,
removes every other card colliding on name `B` (all of which carry a
different id), appends no card (`added = 0`), and the result holds
exactly one card titled `B` with id `X`. -/
theorem c6_rename_persists_identity
    (pre post : List MCard) (c : MCard) (B X : Str)
    (hcid : c.cid = some X)
    (hne : (c.name == B) = false)
    (hpre : ∀ d ∈ pre, (d.cid == some X) = false)
    (hpost : ∀ d ∈ post, (d.cid == some X) = false)
    (hBne : B.isEmpty = false)
    (hdot : ((strL ".").isPrefixOf B) = false)
    (hth : (lowerS B == strL "thumbs") = false) :
    ensureCardsForNewFolders (pre ++ c :: post) [⟨B, some X⟩]
      = (pre.filter (fun d => !(d.name == B)) ++
          { c with name := B, cid := some X } :: post.filter (fun d => !(d.name == B)), 0) ∧
    ((ensureCardsForNewFolders (pre ++ c :: post) [⟨B, some X⟩]).1.filter
      (fun d => d.name == B && d.cid == some X)).length = 1 := by
  have hks : enumFrom 0 (pre ++ c :: post)
      = enumFrom 0 pre ++ (pre.length, c) :: enumFrom (pre.length + 1) post := by
    rw [enumFrom_append 0 pre (c :: post), Nat.zero_add]
    rfl
  have hidlepre : ∀ kc ∈ enumFrom 0 pre, (kc.2.cid == some X) = false := by
    intro kc hkc
    exact hpre kc.2 (mem_enumFrom 0 pre kc.1 kc.2 hkc).2.2
  have hidlepost : ∀ kc ∈ enumFrom (pre.length + 1) post, (kc.2.cid == some X) = false := by
    intro kc hkc
    exact hpost kc.2 (mem_enumFrom (pre.length + 1) post kc.1 kc.2 hkc).2.2
  have hcX : (c.cid == some X) = true := by simp [hcid]
  have hlast : lastIdOwner (enumFrom 0 (pre ++ c :: post)) X = some pre.length := by
    unfold lastIdOwner
    rw [hks, List.foldl_append, foldl_lastId_idle X (enumFrom 0 pre) none hidlepre,
      foldl_lastId_start X (enumFrom (pre.length + 1) post) pre.length none c hcX,
      foldl_lastId_idle X (enumFrom (pre.length + 1) post) (some pre.length) hidlepost]
  have hout : ensureCardsForNewFolders (pre ++ c :: post) [⟨B, some X⟩]
      = ((mergeStep (lastIdOwner (enumFrom 0 (pre ++ c :: post)))
          { cards := enumFrom 0 (pre ++ c :: post),
            names := initNames (enumFrom 0 (pre ++ c :: post)),
            idx := initNameIdx (enumFrom 0 (pre ++ c :: post)),
            fresh := (pre ++ c :: post).length, added := 0 }
          ⟨B, some X⟩).cards.map (fun kc => kc.2),
        (mergeStep (lastIdOwner (enumFrom 0 (pre ++ c :: post)))
          { cards := enumFrom 0 (pre ++ c :: post),
            names := initNames (enumFrom 0 (pre ++ c :: post)),
            idx := initNameIdx (enumFrom 0 (pre ++ c :: post)),
            fresh := (pre ++ c :: post).length, added := 0 }
          ⟨B, some X⟩).added) := rfl
  have hsk : ((strL ".").isPrefixOf B || lowerS B == strL "thumbs") = false := by
    rw [hdot, hth]
    rfl
  have hstep := mergeStep_rename (lastIdOwner (enumFrom 0 (pre ++ c :: post)))
    { cards := enumFrom 0 (pre ++ c :: post),
      names := initNames (enumFrom 0 (pre ++ c :: post)),
      idx := initNameIdx (enumFrom 0 (pre ++ c :: post)),
      fresh := (pre ++ c :: post).length, added := 0 } B X pre.length hsk hlast
  have hmain : ensureCardsForNewFolders (pre ++ c :: post) [⟨B, some X⟩]
      = (pre.filter (fun d => !(d.name == B)) ++
          { c with name := B, cid := some X } :: post.filter (fun d => !(d.name == B)), 0) := by
    rw [hout, hstep, ← rename_cards_eq pre post c B X hne hpre hpost hBne]
  refine ⟨hmain, ?_⟩
  rw [hmain]
  show ((pre.filter (fun d => !(d.name == B)) ++
      { c with name := B, cid := some X } :: post.filter (fun d => !(d.name == B))).filter
    (fun d => d.name == B && d.cid == some X)).length = 1
  have hmidR : (fun d => d.name == B && d.cid == some X)
      ({ c with name := B, cid := some X } : MCard) = true := by
    simp
  rw [List.filter_append, filter_filter_contra B X pre, List.nil_append,
    filter_keep_cons hmidR, filter_filter_contra B X post]
  rfl

theorem c6_rename_persists_identity_witness :
    ensureCardsForNewFolders
        ([⟨strL "B", some (strL "Y"), 1⟩] ++
          (⟨strL "A", some (strL "X"), 7⟩ : MCard) :: [⟨strL "B", none, 2⟩])
        [⟨strL "B", some (strL "X")⟩]
      = ([⟨strL "B", some (strL "X"), 7⟩], 0) ∧
    ((ensureCardsForNewFolders
        ([⟨strL "B", some (strL "Y"), 1⟩] ++
          (⟨strL "A", some (strL "X"), 7⟩ : MCard) :: [⟨strL "B", none, 2⟩])
        [⟨strL "B", some (strL "X")⟩]).1.filter
      (fun d => d.name == strL "B" && d.cid == some (strL "X"))).length = 1 := by
  have h := c6_rename_persists_identity [⟨strL "B", some (strL "Y"), 1⟩] [⟨strL "B", none, 2⟩]
    ⟨strL "A", some (strL "X"), 7⟩ (strL "B") (strL "X") rfl (by decide) (by decide)
    (by decide) (by decide) (by decide) (by decide)
  exact ⟨by rw [h.1]; decide, h.2⟩

end ArtIndexes
